import Mathlib

/-!
# eCs: a minimal Entity-Component-System store

Shallow embedding of `src/eCs.c` (the entity registry, the component store,
the filter/query engine and the system executor) together with the properties
stated about it.

Modelling conventions.

* The two global arrays `entityManager[MAX_ENTITIES]` and
  `componentArrays[MAX_ENTITIES]` and the function-local static counter
  `current_entity` of `create_entity` form the store `State`.  The arrays are
  total maps on `Nat`; every operation bounds-checks the index against
  `MAX_ENTITIES` exactly as the C code does, so slots at or beyond
  `MAX_ENTITIES` are never read or written by the operations.
* A `ComponentArray` (`components[MAX_COMPONENTS]` plus `count`) is the list of
  its slots `components[0 .. count)`; `count` is the length of the list.  Slots
  at or beyond `count` are never read by the C code before being overwritten.
* A payload pointer is represented by the bytes it points to; `NULL` is `none`.
  `memcpy (dst, data, dataSize)` stores `data.take dataSize`.
* `exit (EXIT_FAILURE)` is an explicit outcome: the process stops there.
* The result of `malloc` is an input of `add_component` (`mallocOk`).
* A system callback is a function on the program state; `run_system` passes
  each identifier through the `int` local of its loop.
-/

namespace ECS

/-- The constant `MAX_ENTITIES` of the source. -/
def MAX_ENTITIES : Nat := 10000

/-- The constant `MAX_COMPONENTS` of the source. -/
def MAX_COMPONENTS : Nat := 64

/-- Entity identifiers (`typedef uint32_t Entity`). -/
abbrev Entity := Nat

/-- Payload bytes a `void*` handle points to. -/
abbrev Payload := List Nat

/-- The record `struct Component`. -/
structure Component where
  entity : Entity
  data : Payload
  dataSize : Nat
  typeID : Int
deriving DecidableEq, Repr

/-- The list of required type tags of a `Filter`
(`requiredComponents[0 .. count)`). -/
abbrev Filter := List Int

/-- The store: the static counter of `create_entity`, the liveness flags
`entityManager[i].active` and the component collections `componentArrays[i]`. -/
structure State where
  current_entity : Nat
  entityManager : Nat → Bool
  componentArrays : Nat → List Component

/-- The store at program start: zero-initialised globals. -/
def init : State where
  current_entity := 0
  entityManager := fun _ => false
  componentArrays := fun _ => []

/-- The function `create_entity`.  The first component is `none` on the
`exit (EXIT_FAILURE)` path, where the store is left as it stands. -/
def create_entity (s : State) : Option Entity × State :=
  if s.current_entity ≥ MAX_ENTITIES then
    (none, s)
  else
    (some s.current_entity,
      { s with
        entityManager := Function.update s.entityManager s.current_entity true
        current_entity := s.current_entity + 1 })

/-- The function `destroy_entity`. -/
def destroy_entity (s : State) (entity : Entity) : State :=
  if entity < MAX_ENTITIES then
    { s with
      entityManager := Function.update s.entityManager entity false
      componentArrays := Function.update s.componentArrays entity [] }
  else
    s

/-- Outcome of `add_component`: `null` is the `return NULL` paths, `handle`
the returned payload pointer, `exit` the `exit (EXIT_FAILURE)` path taken when
`malloc` fails. -/
inductive AddResult where
  | null (s : State)
  | handle (payload : Payload) (s : State)
  | exit

/-- The function `add_component`; `mallocOk` tells whether `malloc (dataSize)`
returned a non-null pointer. -/
def add_component (s : State) (entity : Entity) (data : Payload) (dataSize : Nat)
    (typeID : Int) (mallocOk : Bool) : AddResult :=
  if entity ≥ MAX_ENTITIES then
    .null s
  else if !s.entityManager entity then
    .null s
  else if (s.componentArrays entity).length ≥ MAX_COMPONENTS then
    .null s
  else if !mallocOk then
    .exit
  else
    let component : Component :=
      { entity := entity, data := data.take dataSize, dataSize := dataSize, typeID := typeID }
    .handle component.data
      { s with
        componentArrays :=
          Function.update s.componentArrays entity (s.componentArrays entity ++ [component]) }

/-- The scan `for (i = 0; i < count; i++) if (components[i].typeID == typeID)`
of `remove_component`, started at index `i`: the index of the first match. -/
def find_index (typeID : Int) : List Component → Nat → Option Nat
  | [], _ => none
  | c :: cs, i => if c.typeID = typeID then some i else find_index typeID cs (i + 1)

/-- The assignment `components[i] = components[--count]`. -/
def swap_remove (cs : List Component) (i : Nat) : List Component :=
  match cs[cs.length - 1]? with
  | none => cs
  | some last => (cs.set i last).take (cs.length - 1)

/-- The function `remove_component`. -/
def remove_component (s : State) (entity : Entity) (typeID : Int) : State :=
  if entity ≥ MAX_ENTITIES then
    s
  else if !s.entityManager entity then
    s
  else
    match find_index typeID (s.componentArrays entity) 0 with
    | none => s
    | some i =>
      { s with
        componentArrays :=
          Function.update s.componentArrays entity (swap_remove (s.componentArrays entity) i) }

/-- The scan of `get_component`: the payload of the first component with the
tag. -/
def get_scan (typeID : Int) : List Component → Option Payload
  | [] => none
  | c :: cs => if c.typeID = typeID then some c.data else get_scan typeID cs

/-- The function `get_component`. -/
def get_component (s : State) (entity : Entity) (typeID : Int) : Option Payload :=
  if entity ≥ MAX_ENTITIES then
    none
  else if !s.entityManager entity then
    none
  else
    get_scan typeID (s.componentArrays entity)

/-- The scan of `has_component`. -/
def has_scan (typeID : Int) : List Component → Bool
  | [] => false
  | c :: cs => if c.typeID = typeID then true else has_scan typeID cs

/-- The function `has_component`. -/
def has_component (s : State) (entity : Entity) (typeID : Int) : Bool :=
  if entity ≥ MAX_ENTITIES then
    false
  else if !s.entityManager entity then
    false
  else
    has_scan typeID (s.componentArrays entity)

/-- The loop of `matches_filter` over the required tags. -/
def matches_scan (s : State) (entity : Entity) : Filter → Bool
  | [] => true
  | componentId :: rest =>
    if !has_component s entity componentId then false else matches_scan s entity rest

/-- The function `matches_filter`. -/
def matches_filter (s : State) (entity : Entity) (filter : Filter) : Bool :=
  if entity ≥ MAX_ENTITIES then
    false
  else if !s.entityManager entity then
    false
  else
    matches_scan s entity filter

/-- The loop `for (i = ...; i < MAX_ENTITIES; i++)` of `get_filtered_entities`
with `n` iterations left, at index `i`, with the entities collected so far. -/
def filtered_loop (s : State) (filter : Filter) : Nat → Nat → List Entity → List Entity
  | 0, _, acc => acc
  | n + 1, i, acc =>
    if !matches_filter s i filter then
      filtered_loop s filter n (i + 1) acc
    else
      filtered_loop s filter n (i + 1) (acc ++ [i])

/-- The function `get_filtered_entities`: the entries
`entities[0 .. count)` of the returned snapshot. -/
def get_filtered_entities (s : State) (filter : Filter) : List Entity :=
  filtered_loop s filter MAX_ENTITIES 0 []

/-- A call of one of the four mutating operations of the interface. -/
inductive Op where
  | create
  | destroy (entity : Entity)
  | add (entity : Entity) (data : Payload) (dataSize : Nat) (typeID : Int) (mallocOk : Bool)
  | remove (entity : Entity) (typeID : Int)

/-- One call: the store after it and the identifiers it returned (one for a
successful `create_entity`, none otherwise); `none` when the process exits. -/
def step (s : State) : Op → Option (State × List Entity)
  | .create =>
    match create_entity s with
    | (some e, s') => some (s', [e])
    | (none, _) => none
  | .destroy e => some (destroy_entity s e, [])
  | .add e d n t ok =>
    match add_component s e d n t ok with
    | .null s' => some (s', [])
    | .handle _ s' => some (s', [])
    | .exit => none
  | .remove e t => some (remove_component s e t, [])

/-- A sequence of calls from `s`: the final store and the identifiers returned
by the `create_entity` calls in call order; `none` when the process exits on
the way. -/
def exec : State → List Op → Option (State × List Entity)
  | s, [] => some (s, [])
  | s, op :: ops =>
    match step s op with
    | none => none
    | some (s', ids) =>
      match exec s' ops with
      | none => none
      | some (s'', ids') => some (s'', ids ++ ids')

/-- The stores the program can be in: those some sequence of calls leads to
from the initial store. -/
def Reachable (s : State) : Prop :=
  ∃ ops ids, exec init ops = some (s, ids)

/-- The store after the first `create_entity` call of a run: entity `0` is
live and holds no component. -/
def store_one : State := (create_entity init).2

/-- The store a run from the initial store ends in (the initial store when
the process exits on the way). -/
def run (ops : List Op) : State :=
  match exec init ops with
  | some (s, _) => s
  | none => init

/-- The store after `create_entity` and two `add_component` calls on the
entity `0` it returned, both with tag `7`, with the one-byte payloads `1` and
`2`: entity `0` holds two components with the same tag. -/
def store_dup : State :=
  run [.create, .add 0 [1] 1 7 true, .add 0 [2] 1 7 true]

/-- The conversion at `int entity = system->filteredEntities.entities[i]` in
`run_system`: a `uint32_t` value read into a 32-bit `int` (wrap-around for
values from `2 ^ 31` on). -/
def int_of_entity (e : Entity) : Int :=
  if e < 2 ^ 31 then (e : Int) else (e : Int) - 2 ^ 32

/-- The conversion of the `int` argument to the `Entity` parameter at the call
`system->callback (entity)` in `run_system`. -/
def entity_of_int (i : Int) : Entity :=
  (i % 2 ^ 32).toNat

/-- The record `System`: the callback and the snapshot
`filteredEntities.entities[0 .. count)`.  A callback is a C function
`void (Entity)` that returns; it acts on the program state `σ` (the store and
whatever else it reads and writes). -/
structure System (σ : Type) where
  callback : Entity → σ → σ
  filteredEntities : List Entity

/-- The loop of `run_system` over the entries of the snapshot still to
visit. -/
def run_loop {σ : Type} (callback : Entity → σ → σ) : List Entity → σ → σ
  | [], w => w
  | e :: rest, w => run_loop callback rest (callback (entity_of_int (int_of_entity e)) w)

/-- The function `run_system`. -/
def run_system {σ : Type} (system : System σ) (w : σ) : σ :=
  run_loop system.callback system.filteredEntities w

/-- A callback together with a record of its invocations: each call appends
the argument it received to the record. -/
def traced {σ : Type} (callback : Entity → σ → σ) :
    Entity → σ × List Entity → σ × List Entity :=
  fun e w => (callback e w.1, w.2 ++ [e])

/-- Every collection is within capacity and every stored component carries the
identifier of the collection that holds it. -/
def Owned (s : State) : Prop :=
  ∀ e, (s.componentArrays e).length ≤ MAX_COMPONENTS ∧
    ∀ c ∈ s.componentArrays e, c.entity = e

/-- The store after two `create_entity` calls and one `add_component` call
with tag `3` on each of the two entities. -/
def store_two : State :=
  run [.create, .create, .add 0 [1] 1 3 true, .add 1 [2] 1 3 true]

/-- The store after `create_entity` and three `add_component` calls on the
entity `0` it returned, with the tags `1`, `2`, `3` and the one-byte payloads
`10`, `20`, `30`. -/
def store_three : State :=
  run [.create, .add 0 [10] 1 1 true, .add 0 [20] 1 2 true, .add 0 [30] 1 3 true]

/-- The invariant of reachable stores: the counter stays within capacity, only
issued identifiers are live, and an entity that is not live holds no
component. -/
def Inv (s : State) : Prop :=
  s.current_entity ≤ MAX_ENTITIES ∧
  (∀ e, s.entityManager e = true → e < s.current_entity) ∧
  (∀ e, s.entityManager e = false → s.componentArrays e = [])

/-! ## Scans -/

theorem has_scan_iff (t : Int) (cs : List Component) :
    has_scan t cs = true ↔ ∃ c ∈ cs, c.typeID = t := by
  induction cs with
  | nil => simp [has_scan]
  | cons c cs ih =>
    by_cases h : c.typeID = t
    · simp [has_scan, h]
    · simp [has_scan, h, ih]

theorem has_scan_append (t : Int) (xs ys : List Component) :
    has_scan t (xs ++ ys) = (has_scan t xs || has_scan t ys) := by
  induction xs with
  | nil => simp [has_scan]
  | cons c cs ih =>
    by_cases h : c.typeID = t
    · simp [has_scan, h]
    · simp [has_scan, h, ih]

theorem get_scan_append (t : Int) (xs ys : List Component) :
    get_scan t (xs ++ ys) = (get_scan t xs).orElse (fun _ => get_scan t ys) := by
  induction xs with
  | nil => simp [get_scan]
  | cons c cs ih =>
    by_cases h : c.typeID = t
    · simp [get_scan, h]
    · simp [get_scan, h, ih]

theorem get_scan_none_iff (t : Int) (cs : List Component) :
    get_scan t cs = none ↔ has_scan t cs = false := by
  induction cs with
  | nil => simp [get_scan, has_scan]
  | cons c cs ih =>
    by_cases h : c.typeID = t
    · simp [get_scan, has_scan, h]
    · simp [get_scan, has_scan, h, ih]

theorem find_index_none_iff (t : Int) (cs : List Component) (i : Nat) :
    find_index t cs i = none ↔ has_scan t cs = false := by
  induction cs generalizing i with
  | nil => simp [find_index, has_scan]
  | cons c cs ih =>
    by_cases h : c.typeID = t
    · simp [find_index, has_scan, h]
    · simp [find_index, has_scan, h, ih]

/-- A successful scan splits the collection at the first component with the
tag. -/
theorem find_index_some (t : Int) (cs : List Component) (i j : Nat)
    (h : find_index t cs i = some j) :
    ∃ pre c post, cs = pre ++ c :: post ∧ j = i + pre.length ∧ c.typeID = t ∧
      has_scan t pre = false := by
  induction cs generalizing i with
  | nil => simp [find_index] at h
  | cons c cs ih =>
    by_cases hc : c.typeID = t
    · simp [find_index, hc] at h
      exact ⟨[], c, cs, rfl, by simp [h], hc, rfl⟩
    · simp [find_index, hc] at h
      obtain ⟨pre, c', post, h1, h2, h3, h4⟩ := ih (i + 1) h
      refine ⟨c :: pre, c', post, by simp [h1], by rw [h2, List.length_cons]; omega, h3, ?_⟩
      simp [has_scan, hc, h4]

/-- Removing the last slot by the swap leaves the slots before it. -/
theorem swap_remove_last (pre : List Component) (c : Component) :
    swap_remove (pre ++ [c]) pre.length = pre := by
  simp [swap_remove]

/-- Removing an inner slot by the swap puts the last slot in its place. -/
theorem swap_remove_inner (pre mid : List Component) (c last : Component) :
    swap_remove (pre ++ c :: (mid ++ [last])) pre.length = pre ++ last :: mid := by
  have hlen : (pre ++ c :: (mid ++ [last])).length - 1 = pre.length + (mid.length + 1) := by
    simp
  have hget : (pre ++ c :: (mid ++ [last]))[pre.length + (mid.length + 1)]? = some last := by
    rw [List.getElem?_append_right (by omega)]
    simp
  unfold swap_remove
  rw [hlen, hget]
  simp only
  rw [List.set_append_right _ _ (by omega)]
  simp only [Nat.sub_self, List.set_cons_zero]
  rw [List.take_append_eq_append_take]
  simp

/-! ## Queries -/

theorem matches_scan_iff (s : State) (e : Nat) (f : Filter) :
    matches_scan s e f = true ↔ ∀ t ∈ f, has_component s e t = true := by
  induction f with
  | nil => simp [matches_scan]
  | cons t f ih =>
    by_cases h : has_component s e t = true
    · simp [matches_scan, h, ih]
    · simp [matches_scan, h]

theorem matches_filter_iff (s : State) (e : Nat) (f : Filter) :
    matches_filter s e f = true ↔
      e < MAX_ENTITIES ∧ s.entityManager e = true ∧ ∀ t ∈ f, has_component s e t = true := by
  unfold matches_filter
  by_cases h1 : e ≥ MAX_ENTITIES
  · simp [h1]
  · by_cases h2 : s.entityManager e = true
    · have h3 : e < MAX_ENTITIES := by omega
      simp [h1, h2, h3, matches_scan_iff]
    · simp [h1, h2]

theorem filtered_loop_eq (s : State) (f : Filter) (n i : Nat) (acc : List Nat) :
    filtered_loop s f n i acc =
      acc ++ (List.range' i n).filter (fun e => matches_filter s e f) := by
  induction n generalizing i acc with
  | zero => simp [filtered_loop]
  | succ n ih =>
    by_cases h : matches_filter s i f = true
    · simp [filtered_loop, h, ih, List.range'_succ]
    · simp [filtered_loop, h, ih, List.range'_succ]

/-- The snapshot is the ascending range of slots, filtered by
`matches_filter`. -/
theorem get_filtered_entities_eq (s : State) (f : Filter) :
    get_filtered_entities s f =
      (List.range MAX_ENTITIES).filter (fun e => matches_filter s e f) := by
  simp [get_filtered_entities, filtered_loop_eq, List.range_eq_range']

theorem mem_get_filtered_entities (s : State) (f : Filter) (e : Nat) :
    e ∈ get_filtered_entities s f ↔
      e < MAX_ENTITIES ∧ s.entityManager e = true ∧ ∀ t ∈ f, has_component s e t = true := by
  rw [get_filtered_entities_eq, List.mem_filter, List.mem_range, matches_filter_iff]
  tauto

theorem get_filtered_entities_sorted (s : State) (f : Filter) :
    (get_filtered_entities s f).Pairwise (fun a b => a < b) := by
  rw [get_filtered_entities_eq]
  exact List.Pairwise.filter _ (List.pairwise_lt_range _)

/-- A snapshot whose only member is `a` is `[a]`. -/
theorem get_filtered_entities_single (s : State) (f : Filter) (a : Nat)
    (h : ∀ e, e ∈ get_filtered_entities s f ↔ e = a) : get_filtered_entities s f = [a] := by
  have hs := get_filtered_entities_sorted s f
  generalize get_filtered_entities s f = l at h hs
  match l, h, hs with
  | [], h, _ => exact absurd ((h a).mpr rfl) (by simp)
  | [x], h, _ =>
    have := (h x).mp (by simp)
    rw [this]
  | x :: y :: l, h, hs =>
    have hx := (h x).mp (by simp)
    have hy := (h y).mp (by simp)
    rw [List.pairwise_cons] at hs
    have := hs.1 y (by simp)
    rw [hx, hy] at this
    exact absurd this (Nat.lt_irrefl a)

/-! ## Runs -/

theorem create_entity_inv (s s' : State) (e : Nat) (hi : Inv s)
    (h : create_entity s = (some e, s')) : Inv s' := by
  obtain ⟨h1, h2, h3⟩ := hi
  unfold create_entity at h
  split at h
  · simp at h
  · rename_i hlt
    simp only [Prod.mk.injEq, Option.some.injEq] at h
    obtain ⟨_, rfl⟩ := h
    refine ⟨by simp only; omega, ?_, ?_⟩
    · intro x hx
      simp only at hx ⊢
      by_cases hxe : x = s.current_entity
      · omega
      · rw [Function.update_noteq hxe] at hx
        have := h2 x hx
        omega
    · intro x hx
      simp only at hx ⊢
      by_cases hxe : x = s.current_entity
      · subst hxe
        simp at hx
      · rw [Function.update_noteq hxe] at hx
        exact h3 x hx

theorem destroy_entity_inv (s : State) (e : Nat) (hi : Inv s) :
    Inv (destroy_entity s e) := by
  obtain ⟨h1, h2, h3⟩ := hi
  unfold destroy_entity
  split
  · refine ⟨h1, ?_, ?_⟩
    · intro x hx
      simp only at hx
      by_cases hxe : x = e
      · subst hxe
        simp at hx
      · rw [Function.update_noteq hxe] at hx
        exact h2 x hx
    · intro x hx
      simp only at hx ⊢
      by_cases hxe : x = e
      · subst hxe
        simp
      · rw [Function.update_noteq hxe] at hx ⊢
        exact h3 x hx
  · exact ⟨h1, h2, h3⟩

/-- What `add_component` does, case by case. -/
theorem add_component_cases (s : State) (e : Nat) (d : Payload) (n : Nat) (t : Int)
    (ok : Bool) :
    (add_component s e d n t ok = .null s ∧
        (MAX_ENTITIES ≤ e ∨ s.entityManager e = false ∨
          MAX_COMPONENTS ≤ (s.componentArrays e).length)) ∨
    (add_component s e d n t ok = .exit ∧ e < MAX_ENTITIES ∧ s.entityManager e = true ∧
        (s.componentArrays e).length < MAX_COMPONENTS ∧ ok = false) ∨
    (add_component s e d n t ok =
        .handle (d.take n)
          { s with
            componentArrays :=
              Function.update s.componentArrays e
                (s.componentArrays e ++
                  [{ entity := e, data := d.take n, dataSize := n, typeID := t }]) } ∧
      e < MAX_ENTITIES ∧ s.entityManager e = true ∧
        (s.componentArrays e).length < MAX_COMPONENTS ∧ ok = true) := by
  unfold add_component
  by_cases h1 : e ≥ MAX_ENTITIES
  · left; simp [h1]
  · by_cases h2 : s.entityManager e = true
    · by_cases h3 : (s.componentArrays e).length ≥ MAX_COMPONENTS
      · left; simp [h1, h2, h3]
      · cases ok
        · right; left; simp [h1, h2, h3]; omega
        · right; right; simp [h1, h2, h3]; omega
    · left; simp [h1, h2]

/-- What `remove_component` does, case by case. -/
theorem remove_component_cases (s : State) (e : Nat) (t : Int) :
    (remove_component s e t = s ∧
        (MAX_ENTITIES ≤ e ∨ s.entityManager e = false ∨
          has_scan t (s.componentArrays e) = false)) ∨
    (∃ i, find_index t (s.componentArrays e) 0 = some i ∧
      remove_component s e t =
        { s with
          componentArrays :=
            Function.update s.componentArrays e (swap_remove (s.componentArrays e) i) } ∧
      e < MAX_ENTITIES ∧ s.entityManager e = true) := by
  unfold remove_component
  by_cases h1 : e ≥ MAX_ENTITIES
  · left; simp [h1]
  · by_cases h2 : s.entityManager e = true
    · cases h3 : find_index t (s.componentArrays e) 0 with
      | none =>
        left
        simp [h1, h2]
        exact (find_index_none_iff t _ 0).mp h3
      | some i =>
        right
        exact ⟨i, rfl, by simp [h1, h2], Nat.lt_of_not_le h1, h2⟩
    · left; simp [h1, h2]

/-- What a successful `create_entity` does. -/
theorem create_entity_some (s s' : State) (e : Nat) (h : create_entity s = (some e, s')) :
    s.current_entity < MAX_ENTITIES ∧ e = s.current_entity ∧
      s' = { s with
        entityManager := Function.update s.entityManager s.current_entity true
        current_entity := s.current_entity + 1 } := by
  unfold create_entity at h
  split at h
  · simp at h
  · rename_i hlt
    simp only [Prod.mk.injEq, Option.some.injEq] at h
    exact ⟨Nat.lt_of_not_le hlt, h.1.symm, h.2.symm⟩

/-- The `exit` path of `create_entity` is taken exactly at capacity. -/
theorem create_entity_none (s : State) :
    (create_entity s).1 = none ↔ MAX_ENTITIES ≤ s.current_entity := by
  unfold create_entity
  split <;> simp_all

theorem add_component_inv (s s' : State) (e : Nat) (d : Payload) (n : Nat) (t : Int)
    (ok : Bool) (hi : Inv s)
    (h : add_component s e d n t ok = .null s' ∨ ∃ p, add_component s e d n t ok = .handle p s') :
    Inv s' := by
  obtain ⟨h1, h2, h3⟩ := hi
  rcases add_component_cases s e d n t ok with ⟨hr, _⟩ | ⟨hr, _⟩ | ⟨hr, _, hact, _, _⟩
  · rw [hr] at h
    simp at h
    rw [← h]
    exact ⟨h1, h2, h3⟩
  · rw [hr] at h
    simp at h
  · rw [hr] at h
    simp at h
    rw [← h]
    refine ⟨h1, h2, ?_⟩
    intro x hx
    simp only at hx ⊢
    by_cases hxe : x = e
    · subst hxe
      rw [hact] at hx
      simp at hx
    · rw [Function.update_noteq hxe]
      exact h3 x hx

theorem remove_component_inv (s : State) (e : Nat) (t : Int) (hi : Inv s) :
    Inv (remove_component s e t) := by
  obtain ⟨h1, h2, h3⟩ := hi
  rcases remove_component_cases s e t with ⟨hr, _⟩ | ⟨i, _, hr, _, hact⟩
  · rw [hr]
    exact ⟨h1, h2, h3⟩
  · rw [hr]
    refine ⟨h1, h2, ?_⟩
    intro x hx
    simp only at hx ⊢
    by_cases hxe : x = e
    · subst hxe
      rw [hact] at hx
      simp at hx
    · rw [Function.update_noteq hxe]
      exact h3 x hx

/-- The liveness flags and the counter after `add_component` are those
before. -/
theorem add_component_frame (s s' : State) (e : Nat) (d : Payload) (n : Nat) (t : Int)
    (ok : Bool)
    (h : add_component s e d n t ok = .null s' ∨ ∃ p, add_component s e d n t ok = .handle p s') :
    s'.entityManager = s.entityManager ∧ s'.current_entity = s.current_entity := by
  rcases add_component_cases s e d n t ok with ⟨hr, _⟩ | ⟨hr, _⟩ | ⟨hr, _⟩
  · rw [hr] at h
    simp at h
    rw [← h]
    exact ⟨rfl, rfl⟩
  · rw [hr] at h
    simp at h
  · rw [hr] at h
    simp at h
    rw [← h]
    exact ⟨rfl, rfl⟩

/-- The liveness flags and the counter after `remove_component` are those
before. -/
theorem remove_component_frame (s : State) (e : Nat) (t : Int) :
    (remove_component s e t).entityManager = s.entityManager ∧
      (remove_component s e t).current_entity = s.current_entity := by
  rcases remove_component_cases s e t with ⟨hr, _⟩ | ⟨i, _, hr, _⟩
  · rw [hr]
    exact ⟨rfl, rfl⟩
  · rw [hr]
    exact ⟨rfl, rfl⟩

/-- The calls a step stands for. -/
theorem step_cases (s s' : State) (op : Op) (ids : List Entity)
    (h : step s op = some (s', ids)) :
    (∃ e, op = .create ∧ create_entity s = (some e, s') ∧ ids = [e]) ∨
    (∃ e, op = .destroy e ∧ s' = destroy_entity s e ∧ ids = []) ∨
    (∃ e d n t ok, op = .add e d n t ok ∧
      (add_component s e d n t ok = .null s' ∨ ∃ p, add_component s e d n t ok = .handle p s') ∧
      ids = []) ∨
    (∃ e t, op = .remove e t ∧ s' = remove_component s e t ∧ ids = []) := by
  cases op with
  | create =>
    left
    simp only [step] at h
    cases hc : create_entity s with
    | mk r s1 =>
      rw [hc] at h
      cases r with
      | none => simp at h
      | some e =>
        simp at h
        exact ⟨e, rfl, by rw [h.1], h.2.symm⟩
  | destroy e =>
    right; left
    simp only [step, Option.some.injEq, Prod.mk.injEq] at h
    exact ⟨e, rfl, h.1.symm, h.2.symm⟩
  | add e d n t ok =>
    right; right; left
    simp only [step] at h
    cases hc : add_component s e d n t ok with
    | null s1 =>
      rw [hc] at h
      simp at h
      exact ⟨e, d, n, t, ok, rfl, Or.inl (h.1 ▸ hc), h.2⟩
    | handle p s1 =>
      rw [hc] at h
      simp at h
      exact ⟨e, d, n, t, ok, rfl, Or.inr ⟨p, h.1 ▸ hc⟩, h.2⟩
    | exit =>
      rw [hc] at h
      simp at h
  | remove e t =>
    right; right; right
    simp only [step, Option.some.injEq, Prod.mk.injEq] at h
    exact ⟨e, t, rfl, h.1.symm, h.2.symm⟩

/-- One call preserves the invariant. -/
theorem step_inv (s s' : State) (op : Op) (ids : List Entity) (hi : Inv s)
    (h : step s op = some (s', ids)) : Inv s' := by
  rcases step_cases s s' op ids h with ⟨e, _, hc, _⟩ | ⟨e, _, hc, _⟩ |
    ⟨e, d, n, t, ok, _, hc, _⟩ | ⟨e, t, _, hc, _⟩
  · exact create_entity_inv s s' e hi hc
  · rw [hc]
    exact destroy_entity_inv s e hi
  · exact add_component_inv s s' e d n t ok hi hc
  · rw [hc]
    exact remove_component_inv s e t hi

/-- One call returns at most the next identifier of the counter and advances
the counter by the number of identifiers returned. -/
theorem step_ids (s s' : State) (op : Op) (ids : List Entity)
    (h : step s op = some (s', ids)) :
    ids = List.range' s.current_entity ids.length ∧
      s'.current_entity = s.current_entity + ids.length := by
  rcases step_cases s s' op ids h with ⟨e, _, hc, hi⟩ | ⟨e, _, hc, hi⟩ |
    ⟨e, d, n, t, ok, _, hc, hi⟩ | ⟨e, t, _, hc, hi⟩
  · obtain ⟨_, h2, h3⟩ := create_entity_some s s' e hc
    rw [hi, h2, h3]
    simp [List.range'_one]
  · rw [hi, hc]
    unfold destroy_entity
    split <;> simp
  · rw [hi]
    simp [(add_component_frame s s' e d n t ok hc).2]
  · rw [hi, hc]
    simp [(remove_component_frame s e t).2]

/-- One call leaves a dead, already issued identifier dead. -/
theorem step_dead (s s' : State) (op : Op) (ids : List Entity) (x : Nat)
    (h : step s op = some (s', ids)) (hx : x < s.current_entity)
    (hd : s.entityManager x = false) : s'.entityManager x = false := by
  rcases step_cases s s' op ids h with ⟨e, _, hc, _⟩ | ⟨e, _, hc, _⟩ |
    ⟨e, d, n, t, ok, _, hc, _⟩ | ⟨e, t, _, hc, _⟩
  · obtain ⟨_, _, h3⟩ := create_entity_some s s' e hc
    rw [h3]
    simp only
    rw [Function.update_noteq (by omega)]
    exact hd
  · rw [hc]
    unfold destroy_entity
    split
    · simp only
      by_cases hxe : x = e
      · subst hxe
        simp
      · rw [Function.update_noteq hxe]
        exact hd
    · exact hd
  · rw [(add_component_frame s s' e d n t ok hc).1]
    exact hd
  · rw [hc, (remove_component_frame s e t).1]
    exact hd

theorem exec_nil (s s' : State) (ids : List Entity) :
    exec s [] = some (s', ids) ↔ s' = s ∧ ids = [] := by
  simp only [exec, Option.some.injEq, Prod.mk.injEq]
  constructor
  · rintro ⟨h1, h2⟩
    exact ⟨h1.symm, h2.symm⟩
  · rintro ⟨h1, h2⟩
    exact ⟨h1.symm, h2.symm⟩

theorem exec_cons (s s' : State) (op : Op) (ops : List Op) (ids : List Entity) :
    exec s (op :: ops) = some (s', ids) ↔
      ∃ s1 ids1 ids2, step s op = some (s1, ids1) ∧ exec s1 ops = some (s', ids2) ∧
        ids = ids1 ++ ids2 := by
  constructor
  · intro h
    simp only [exec] at h
    split at h
    · simp at h
    · rename_i s1 ids1 h1
      split at h
      · simp at h
      · rename_i s2 ids2 h2
        simp only [Option.some.injEq, Prod.mk.injEq] at h
        exact ⟨s1, ids1, ids2, h1, by rw [h2, h.1], h.2.symm⟩
  · rintro ⟨s1, ids1, ids2, h1, h2, rfl⟩
    simp [exec, h1, h2]

/-- The identifiers a run returns are the next ones of the counter, in
order. -/
theorem exec_ids (s s' : State) (ops : List Op) (ids : List Entity)
    (h : exec s ops = some (s', ids)) :
    ids = List.range' s.current_entity ids.length ∧
      s'.current_entity = s.current_entity + ids.length := by
  induction ops generalizing s ids with
  | nil =>
    obtain ⟨rfl, rfl⟩ := (exec_nil s s' ids).mp h
    simp
  | cons op ops ih =>
    obtain ⟨s1, ids1, ids2, h1, h2, rfl⟩ := (exec_cons s s' op ops ids).mp h
    obtain ⟨ha, hb⟩ := step_ids s s1 op ids1 h1
    obtain ⟨hc, hd⟩ := ih s1 ids2 h2
    refine ⟨?_, by rw [hd, hb, List.length_append]; omega⟩
    rw [List.length_append, Nat.add_comm, ← List.range'_append_1, ← ha, ← hb, ← hc]

/-- A run preserves the invariant. -/
theorem exec_inv (s s' : State) (ops : List Op) (ids : List Entity) (hi : Inv s)
    (h : exec s ops = some (s', ids)) : Inv s' := by
  induction ops generalizing s ids with
  | nil =>
    obtain ⟨rfl, rfl⟩ := (exec_nil s s' ids).mp h
    exact hi
  | cons op ops ih =>
    obtain ⟨s1, ids1, ids2, h1, h2, rfl⟩ := (exec_cons s s' op ops ids).mp h
    exact ih s1 ids2 (step_inv s s1 op ids1 hi h1) h2

/-- A run leaves a dead, already issued identifier dead. -/
theorem exec_dead (s s' : State) (ops : List Op) (ids : List Entity) (x : Nat)
    (h : exec s ops = some (s', ids)) (hx : x < s.current_entity)
    (hd : s.entityManager x = false) : s'.entityManager x = false := by
  induction ops generalizing s ids with
  | nil =>
    obtain ⟨rfl, rfl⟩ := (exec_nil s s' ids).mp h
    exact hd
  | cons op ops ih =>
    obtain ⟨s1, ids1, ids2, h1, h2, rfl⟩ := (exec_cons s s' op ops ids).mp h
    have hcur := (step_ids s s1 op ids1 h1).2
    exact ih s1 ids2 h2 (by omega) (step_dead s s1 op ids1 x h1 hx hd)

theorem init_inv : Inv init := by
  refine ⟨by simp [init], ?_, ?_⟩
  · intro e h
    simp [init] at h
  · intro e _
    rfl

/-- Every reachable store satisfies the invariant. -/
theorem reachable_inv (s : State) (h : Reachable s) : Inv s := by
  obtain ⟨ops, ids, h⟩ := h
  exact exec_inv init s ops ids init_inv h

/-- The swap removes exactly the slot it is aimed at, up to order. -/
theorem swap_remove_perm (pre post : List Component) (c : Component) :
    (swap_remove (pre ++ c :: post) pre.length).Perm (pre ++ post) := by
  rcases List.eq_nil_or_concat post with rfl | ⟨mid, last, rfl⟩
  · have := swap_remove_last pre c
    simp only [List.singleton_append] at this
    rw [List.append_nil, this]
  · rw [List.concat_eq_append, swap_remove_inner]
    apply List.Perm.append_left
    rw [show last :: mid = [last] ++ mid from rfl]
    exact List.perm_append_comm

theorem has_scan_perm (t : Int) (xs ys : List Component) (h : xs.Perm ys) :
    has_scan t xs = has_scan t ys := by
  have hiff : has_scan t xs = true ↔ has_scan t ys = true := by
    rw [has_scan_iff, has_scan_iff]
    constructor
    · rintro ⟨c, hc, ht⟩
      exact ⟨c, h.subset hc, ht⟩
    · rintro ⟨c, hc, ht⟩
      exact ⟨c, h.symm.subset hc, ht⟩
  cases h1 : has_scan t xs <;> cases h2 : has_scan t ys <;> simp_all

theorem countP_zero_has_scan (t : Int) (cs : List Component)
    (h : cs.countP (fun c => decide (c.typeID = t)) = 0) : has_scan t cs = false := by
  cases hs : has_scan t cs with
  | false => rfl
  | true =>
    obtain ⟨c, hc, ht⟩ := (has_scan_iff t cs).mp hs
    rw [List.countP_eq_zero] at h
    exact absurd (by simpa using ht) (h c hc)

/-- On an in-range live entity `has_component` is the scan of its
collection. -/
theorem has_component_live (s : State) (e : Nat) (t : Int) (h1 : e < MAX_ENTITIES)
    (h2 : s.entityManager e = true) :
    has_component s e t = has_scan t (s.componentArrays e) := by
  simp [has_component, h2, Nat.not_le.mpr h1]

/-- On an in-range live entity `get_component` is the scan of its
collection. -/
theorem get_component_live (s : State) (e : Nat) (t : Int) (h1 : e < MAX_ENTITIES)
    (h2 : s.entityManager e = true) :
    get_component s e t = get_scan t (s.componentArrays e) := by
  simp [get_component, h2, Nat.not_le.mpr h1]

/-- On an out-of-range or dead entity the lookups find nothing. -/
theorem lookup_dead (s : State) (e : Nat) (t : Int)
    (h : MAX_ENTITIES ≤ e ∨ s.entityManager e = false) :
    has_component s e t = false ∧ get_component s e t = none := by
  unfold has_component get_component
  rcases h with h | h
  · simp [h]
  · by_cases h1 : e ≥ MAX_ENTITIES
    · simp [h1]
    · simp [h1, h]

/-- In a run from the initial store the identifiers returned so far are
`0, 1, ..., k - 1`, the counter is `k`, and `k` is within capacity. -/
theorem exec_init_ids (s : State) (ops : List Op) (ids : List Entity)
    (h : exec init ops = some (s, ids)) :
    ids = List.range ids.length ∧ s.current_entity = ids.length ∧
      ids.length ≤ MAX_ENTITIES := by
  obtain ⟨h1, h2⟩ := exec_ids init s ops ids h
  have h3 := (exec_inv init s ops ids init_inv h).1
  have h0 : init.current_entity = 0 := rfl
  rw [h0] at h1 h2
  rw [Nat.zero_add] at h2
  refine ⟨?_, h2, by omega⟩
  rw [List.range_eq_range']
  exact h1

/-- An identifier was returned in a run from the initial store exactly when it
is below the counter. -/
theorem exec_init_mem (s : State) (ops : List Op) (ids : List Entity) (e : Nat)
    (h : exec init ops = some (s, ids)) : e ∈ ids ↔ e < s.current_entity := by
  obtain ⟨h1, h2, _⟩ := exec_init_ids s ops ids h
  rw [h2]
  constructor
  · intro he
    rw [h1] at he
    exact List.mem_range.mp he
  · intro he
    rw [h1]
    exact List.mem_range.mpr he

/-- Calling `create_entity` `k` times from a store with room for `k` more
identifiers returns the next `k` identifiers. -/
theorem exec_creates (k : Nat) (s : State) (h : s.current_entity + k ≤ MAX_ENTITIES) :
    ∃ s', exec s (List.replicate k Op.create) = some (s', List.range' s.current_entity k) := by
  induction k generalizing s with
  | zero => exact ⟨s, rfl⟩
  | succ k ih =>
    have hlt : ¬ s.current_entity ≥ MAX_ENTITIES := by omega
    have hc : create_entity s =
        (some s.current_entity,
          { s with
            entityManager := Function.update s.entityManager s.current_entity true
            current_entity := s.current_entity + 1 }) := by
      simp [create_entity, hlt]
    obtain ⟨s', hs'⟩ := ih
      { s with
        entityManager := Function.update s.entityManager s.current_entity true
        current_entity := s.current_entity + 1 } (by simp only; omega)
    refine ⟨s', ?_⟩
    rw [List.replicate_succ, exec_cons]
    refine ⟨_, [s.current_entity], _, ?_, hs', ?_⟩
    · simp [step, hc]
    · simp [List.range'_succ]

/-- Adding components one after the other to an in-range live entity whose
collection has room for all of them appends them in call order. -/
theorem exec_adds (calls : List (Payload × Nat × Int)) (s : State) (e : Nat)
    (h1 : e < MAX_ENTITIES) (h2 : s.entityManager e = true)
    (h3 : (s.componentArrays e).length + calls.length ≤ MAX_COMPONENTS) :
    ∃ s', exec s (calls.map (fun c => Op.add e c.1 c.2.1 c.2.2 true)) = some (s', []) ∧
      s'.entityManager = s.entityManager ∧ s'.current_entity = s.current_entity ∧
      s'.componentArrays e =
        s.componentArrays e ++
          calls.map (fun c =>
            ({ entity := e, data := c.1.take c.2.1, dataSize := c.2.1, typeID := c.2.2 } :
              Component)) := by
  induction calls generalizing s with
  | nil => exact ⟨s, rfl, rfl, rfl, by simp⟩
  | cons c calls ih =>
    rw [List.length_cons] at h3
    rcases add_component_cases s e c.1 c.2.1 c.2.2 true with
      ⟨_, hr⟩ | ⟨_, _, _, _, hr⟩ | ⟨hr, _⟩
    · rcases hr with hr | hr | hr
      · omega
      · rw [h2] at hr
        simp at hr
      · omega
    · simp at hr
    · obtain ⟨s', hs1, hs2, hs3, hs4⟩ := ih
        { s with
          componentArrays :=
            Function.update s.componentArrays e
              (s.componentArrays e ++
                [{ entity := e, data := c.1.take c.2.1, dataSize := c.2.1, typeID := c.2.2 }]) }
        h2 (by simp; omega)
      refine ⟨s', ?_, hs2, hs3, ?_⟩
      · rw [List.map_cons, exec_cons]
        exact ⟨_, [], [], by simp only [step, hr], hs1, rfl⟩
      · rw [hs4]
        simp

/-- On an out-of-range or dead entity `remove_component` returns at once. -/
theorem remove_component_dead (s : State) (e : Nat) (t : Int)
    (h : MAX_ENTITIES ≤ e ∨ s.entityManager e = false) : remove_component s e t = s := by
  rcases remove_component_cases s e t with ⟨hr, _⟩ | ⟨_, _, _, h1, h2⟩
  · exact hr
  · rcases h with h | h
    · omega
    · rw [h2] at h
      simp at h

/-- Reading a `uint32_t` identifier into an `int` and passing it back as an
`Entity` gives the identifier again. -/
theorem entity_of_int_of_entity (e : Nat) (h : e < 2 ^ 32) :
    entity_of_int (int_of_entity e) = e := by
  unfold entity_of_int int_of_entity
  split
  · show @Eq Nat (((e : Int) % 2 ^ 32).toNat) e
    omega
  · show @Eq Nat ((((e : Int) - 2 ^ 32) % 2 ^ 32).toNat) e
    omega

theorem run_loop_foldl {σ : Type} (callback : Entity → σ → σ) (l : List Entity) (w : σ)
    (h : ∀ e ∈ l, e < 2 ^ 32) :
    run_loop callback l w = l.foldl (fun w e => callback e w) w := by
  induction l generalizing w with
  | nil => rfl
  | cons e l ih =>
    simp only [run_loop, List.foldl_cons]
    rw [entity_of_int_of_entity e (h e (by simp))]
    exact ih _ (fun x hx => h x (by simp [hx]))

theorem run_loop_traced {σ : Type} (callback : Entity → σ → σ) (l : List Entity) (w : σ)
    (log : List Entity) (h : ∀ e ∈ l, e < 2 ^ 32) :
    run_loop (traced callback) l (w, log) = (run_loop callback l w, log ++ l) := by
  induction l generalizing w log with
  | nil => simp [run_loop]
  | cons e l ih =>
    simp only [run_loop]
    rw [entity_of_int_of_entity e (h e (by simp))]
    simp only [traced]
    rw [ih _ _ (fun x hx => h x (by simp [hx]))]
    simp

/-- The lookups on an entity read its liveness flag and its collection
only. -/
theorem has_component_congr (s s' : State) (e : Nat) (t : Int)
    (h1 : s'.entityManager e = s.entityManager e)
    (h2 : s'.componentArrays e = s.componentArrays e) :
    has_component s' e t = has_component s e t := by
  unfold has_component
  rw [h1, h2]

theorem matches_filter_congr (s s' : State) (e : Nat) (f : Filter)
    (h1 : s'.entityManager e = s.entityManager e)
    (h2 : s'.componentArrays e = s.componentArrays e) :
    matches_filter s' e f = matches_filter s e f := by
  rw [Bool.eq_iff_iff, matches_filter_iff, matches_filter_iff, h1]
  simp only [has_component_congr s s' e _ h1 h2]

/-- The first index holding the tag splits the collection there. -/
theorem first_index_split (t : Int) (cs : List Component) (i : Nat) (c : Component)
    (hc : cs[i]? = some c)
    (hfirst : ∀ j c', j < i → cs[j]? = some c' → c'.typeID ≠ t) :
    ∃ pre post, cs = pre ++ c :: post ∧ pre.length = i ∧ has_scan t pre = false := by
  obtain ⟨hi, hci⟩ := List.getElem?_eq_some.mp hc
  refine ⟨cs.take i, cs.drop (i + 1), ?_, ?_, ?_⟩
  · rw [← hci, ← List.drop_eq_getElem_cons hi, List.take_append_drop]
  · rw [List.length_take]
    omega
  · cases hs : has_scan t (cs.take i) with
    | false => rfl
    | true =>
      obtain ⟨c', hmem, ht'⟩ := (has_scan_iff t _).mp hs
      obtain ⟨j, hj⟩ := List.mem_iff_getElem?.mp hmem
      rw [List.getElem?_take] at hj
      split at hj
      · rename_i hlt
        exact absurd ht' (hfirst j c' hlt hj)
      · simp at hj

/-- The scan of `remove_component` stops at the first component with the
tag. -/
theorem find_index_split (t : Int) (pre post : List Component) (c : Component) (k : Nat)
    (hpre : has_scan t pre = false) (hc : c.typeID = t) :
    find_index t (pre ++ c :: post) k = some (k + pre.length) := by
  induction pre generalizing k with
  | nil => simp [find_index, hc]
  | cons x pre ih =>
    have hx : ¬ x.typeID = t := by
      intro hx
      simp [has_scan, hx] at hpre
    have hpre' : has_scan t pre = false := by
      simpa [has_scan, hx] using hpre
    have hstep : find_index t (x :: pre ++ c :: post) k =
        find_index t (pre ++ c :: post) (k + 1) := by
      simp [find_index, hx]
    rw [hstep, ih (k + 1) hpre', List.length_cons]
    congr 1
    omega

theorem eraseIdx_split (pre post : List Component) (c : Component) :
    (pre ++ c :: post).eraseIdx pre.length = pre ++ post := by
  rw [List.eraseIdx_append_of_length_le (Nat.le_refl _)]
  simp

/-- A successful scan of `get_component` returns the payload of a stored
component with the tag. -/
theorem get_scan_mem (t : Int) (cs : List Component) (p : Payload)
    (h : get_scan t cs = some p) : ∃ c ∈ cs, c.typeID = t ∧ c.data = p := by
  induction cs with
  | nil => simp [get_scan] at h
  | cons x cs ih =>
    by_cases hx : x.typeID = t
    · simp [get_scan, hx] at h
      exact ⟨x, by simp, hx, h⟩
    · simp [get_scan, hx] at h
      obtain ⟨c, hc, h1, h2⟩ := ih h
      exact ⟨c, by simp [hc], h1, h2⟩

/-- With at most one component per tag, every stored component is the one the
scan of `get_component` finds for its tag. -/
theorem get_scan_of_mem (cs : List Component) (c : Component)
    (hn : (cs.map (fun x => x.typeID)).Nodup) (hc : c ∈ cs) :
    get_scan c.typeID cs = some c.data := by
  induction cs with
  | nil => simp at hc
  | cons x cs ih =>
    rw [List.map_cons, List.nodup_cons] at hn
    by_cases hx : x.typeID = c.typeID
    · have hcx : c = x := by
        rcases List.mem_cons.mp hc with h | h
        · exact h
        · exact absurd (List.mem_map.mpr ⟨c, h, hx.symm⟩) hn.1
      simp [get_scan, hcx]
    · have hmem : c ∈ cs := by
        rcases List.mem_cons.mp hc with h | h
        · rw [h] at hx
          exact absurd rfl hx
        · exact h
      simp only [get_scan, hx, if_false]
      exact ih hn.2 hmem

/-- With at most one component per tag, the payload found for a tag does not
depend on the order of the collection. -/
theorem get_scan_perm (t : Int) (xs ys : List Component)
    (hn : (xs.map (fun x => x.typeID)).Nodup) (h : xs.Perm ys) :
    get_scan t xs = get_scan t ys := by
  have hn' : (ys.map (fun x => x.typeID)).Nodup := (h.map _).nodup_iff.mp hn
  cases hx : get_scan t xs with
  | none =>
    have h1 := (get_scan_none_iff t xs).mp hx
    rw [has_scan_perm t xs ys h] at h1
    exact ((get_scan_none_iff t ys).mpr h1).symm
  | some p =>
    obtain ⟨c, hc, h1, h2⟩ := get_scan_mem t xs p hx
    have := get_scan_of_mem ys c hn' (h.subset hc)
    rw [h1, h2] at this
    exact this.symm

theorem init_owned : Owned init := by
  intro e
  exact ⟨Nat.zero_le _, fun c hc => absurd hc (List.not_mem_nil c)⟩

/-- One call keeps every collection within capacity and every stored component
in the collection of its entity. -/
theorem step_owned (s s' : State) (op : Op) (ids : List Entity) (ho : Owned s)
    (h : step s op = some (s', ids)) : Owned s' := by
  rcases step_cases s s' op ids h with ⟨e, _, hc, _⟩ | ⟨e, _, hc, _⟩ |
    ⟨e, d, n, t, ok, _, hc, _⟩ | ⟨e, t, _, hc, _⟩
  · obtain ⟨_, _, h3⟩ := create_entity_some s s' e hc
    rw [h3]
    exact ho
  · rw [hc]
    unfold destroy_entity
    split
    · intro x
      by_cases hxe : x = e
      · subst hxe
        simp
      · simp only [Function.update_noteq hxe]
        exact ho x
    · exact ho
  · rcases add_component_cases s e d n t ok with ⟨hr, _⟩ | ⟨hr, _⟩ | ⟨hr, _, _, hlen, _⟩
    · rw [hr] at hc
      simp at hc
      rw [← hc]
      exact ho
    · rw [hr] at hc
      simp at hc
    · rw [hr] at hc
      simp at hc
      rw [← hc]
      intro x
      by_cases hxe : x = e
      · subst hxe
        simp only [Function.update_same, List.length_append, List.length_singleton,
          List.mem_append, List.mem_singleton]
        refine ⟨by omega, ?_⟩
        rintro c (hmem | rfl)
        · exact (ho x).2 c hmem
        · rfl
      · simp only [Function.update_noteq hxe]
        exact ho x
  · rw [hc]
    rcases remove_component_cases s e t with ⟨hr, _⟩ | ⟨i, hi, hr, _, _⟩
    · rw [hr]
      exact ho
    · rw [hr]
      obtain ⟨pre, c, post, hcs, hlen, _, _⟩ := find_index_some t _ 0 i hi
      have hperm := swap_remove_perm pre post c
      rw [Nat.zero_add] at hlen
      intro x
      by_cases hxe : x = e
      · subst hxe
        simp only [Function.update_same]
        rw [hcs, hlen]
        have hx := ho x
        rw [hcs] at hx
        refine ⟨?_, ?_⟩
        · rw [hperm.length_eq]
          have := hx.1
          simp only [List.length_append, List.length_cons] at this ⊢
          omega
        · intro c' hc'
          have hmem := hperm.subset hc'
          apply hx.2 c'
          rcases List.mem_append.mp hmem with hm | hm
          · exact List.mem_append.mpr (Or.inl hm)
          · exact List.mem_append.mpr (Or.inr (List.mem_cons_of_mem c hm))
      · simp only [Function.update_noteq hxe]
        exact ho x

theorem exec_owned (s s' : State) (ops : List Op) (ids : List Entity) (ho : Owned s)
    (h : exec s ops = some (s', ids)) : Owned s' := by
  induction ops generalizing s ids with
  | nil =>
    obtain ⟨rfl, rfl⟩ := (exec_nil s s' ids).mp h
    exact ho
  | cons op ops ih =>
    obtain ⟨s1, ids1, ids2, h1, h2, rfl⟩ := (exec_cons s s' op ops ids).mp h
    exact ih s1 ids2 (step_owned s s1 op ids1 ho h1) h2

/-- The answer of `has_component` is fixed by the liveness flag of the entity
and the scan of its collection. -/
theorem has_component_scan (s s' : State) (e : Nat) (t : Int)
    (h1 : s'.entityManager e = s.entityManager e)
    (h2 : has_scan t (s'.componentArrays e) = has_scan t (s.componentArrays e)) :
    has_component s' e t = has_component s e t := by
  unfold has_component
  rw [h1, h2]

/-! ## The query engine -/

/-- C1: in every reachable store and for every filter, the snapshot returned by
`get_filtered_entities` contains exactly the in-range live entities that have
every tag of the filter, is strictly ascending (hence without duplicates), is
empty when no entity matches, and for the empty filter holds exactly the live
entities.  Scenario: after `create_entity` returned `0` and tags `1` and `3`
were added to it, the filters `[3]` and `[1, 3]` give `[0]` and the filter
`[2]` gives `[]`. -/
theorem get_filtered_entities_correct (s : State) (hs : Reachable s) (f : Filter) :
    (∀ e, e ∈ get_filtered_entities s f ↔
        e < MAX_ENTITIES ∧ s.entityManager e = true ∧
          ∀ t ∈ f, has_component s e t = true) ∧
    (get_filtered_entities s f).Pairwise (fun a b => a < b) ∧
    (get_filtered_entities s f).Nodup ∧
    ((∀ e, ¬ (e < MAX_ENTITIES ∧ s.entityManager e = true ∧
          ∀ t ∈ f, has_component s e t = true)) → get_filtered_entities s f = []) ∧
    (∀ e, e ∈ get_filtered_entities s [] ↔ s.entityManager e = true) ∧
    (∀ d1 n1 d3 n3, ∃ sc,
      exec init [.create, .add 0 d1 n1 1 true, .add 0 d3 n3 3 true] = some (sc, [0]) ∧
      get_filtered_entities sc [3] = [0] ∧ get_filtered_entities sc [1, 3] = [0] ∧
      get_filtered_entities sc [2] = []) := by
  have hsorted := get_filtered_entities_sorted s f
  refine ⟨mem_get_filtered_entities s f, hsorted, ?_, ?_, ?_, ?_⟩
  · exact hsorted.imp (fun h => Nat.ne_of_lt h)
  · intro h
    apply List.eq_nil_iff_forall_not_mem.mpr
    intro e he
    exact h e ((mem_get_filtered_entities s f e).mp he)
  · intro e
    rw [mem_get_filtered_entities]
    obtain ⟨h1, h2, _⟩ := reachable_inv s hs
    constructor
    · intro h; exact h.2.1
    · intro h
      have := h2 e h
      exact ⟨by omega, h, by simp⟩
  · intro d1 n1 d3 n3
    refine ⟨_, rfl, ?_, ?_, ?_⟩
    · apply get_filtered_entities_single
      intro e
      rw [mem_get_filtered_entities]
      by_cases he : e = 0
      · subst he
        simp [has_component, has_scan, MAX_ENTITIES, init]
      · simp [he, init, Function.update]
    · apply get_filtered_entities_single
      intro e
      rw [mem_get_filtered_entities]
      by_cases he : e = 0
      · subst he
        simp [has_component, has_scan, MAX_ENTITIES, init]
      · simp [he, init, Function.update]
    · apply List.eq_nil_iff_forall_not_mem.mpr
      intro e he
      rw [mem_get_filtered_entities] at he
      by_cases h0 : e = 0
      · subst h0
        simp [has_component, has_scan, MAX_ENTITIES, init] at he
      · simp [h0, init, Function.update] at he

theorem get_filtered_entities_correct_witness :
    Reachable store_one ∧
      ((get_filtered_entities store_one [3]).Pairwise (fun a b => a < b) ∧
        (get_filtered_entities store_one [3]).Nodup) :=
  ⟨⟨[.create], [0], rfl⟩,
    (get_filtered_entities_correct store_one ⟨[.create], [0], rfl⟩ [3]).2.1,
    (get_filtered_entities_correct store_one ⟨[.create], [0], rfl⟩ [3]).2.2.1⟩

/-! ## The component store -/

/-- C2, refuted as stated: on the reachable store `store_dup`, where entity `0`
already holds a component with tag `7` and payload `[1]`, a further
`add_component (0, [9], 1, 7)` succeeds, yet `get_component (0, 7)` still
yields the earlier payload `[1]`, not the bytes `[9]` just added. -/
theorem add_component_get_counterexample :
    Reachable store_dup ∧
      ∃ s', add_component store_dup 0 [9] 1 7 true = .handle [9] s' ∧
        has_component s' 0 7 = true ∧ get_component s' 0 7 = some [1] ∧
        get_component s' 0 7 ≠ some (List.take 1 [9]) :=
  ⟨⟨[.create, .add 0 [1] 1 7 true, .add 0 [2] 1 7 true], [0], rfl⟩,
    _, rfl, rfl, rfl, by decide⟩

/-- C2, amended: when `add_component (e, d, n, t)` succeeds, the returned
handle points to the bytes `d[0..n)`, `has_component (e, t)` is true in the
resulting store, and `get_component (e, t)` yields `d[0..n)` provided `e` had
no component with tag `t` before the call. -/
theorem add_component_get (s s' : State) (e : Nat) (d : Payload) (n : Nat) (t : Int)
    (ok : Bool) (p : Payload) (h : add_component s e d n t ok = .handle p s') :
    p = d.take n ∧ has_component s' e t = true ∧
      (has_component s e t = false → get_component s' e t = some (d.take n)) := by
  rcases add_component_cases s e d n t ok with ⟨hr, _⟩ | ⟨hr, _⟩ | ⟨hr, h1, h2, _, _⟩
  · rw [hr] at h
    simp at h
  · rw [hr] at h
    simp at h
  · rw [hr] at h
    simp only [AddResult.handle.injEq] at h
    obtain ⟨hp, hs⟩ := h
    have hlive : s'.entityManager e = true := by rw [← hs]; exact h2
    have hcs : s'.componentArrays e =
        s.componentArrays e ++ [{ entity := e, data := d.take n, dataSize := n, typeID := t }] := by
      rw [← hs]
      simp
    refine ⟨hp.symm, ?_, ?_⟩
    · rw [has_component_live s' e t h1 hlive, hcs, has_scan_append]
      simp [has_scan]
    · intro hno
      rw [has_component_live s e t h1 h2] at hno
      rw [get_component_live s' e t h1 hlive, hcs, get_scan_append,
        (get_scan_none_iff t _).mpr hno]
      simp [get_scan]

theorem add_component_get_witness :
    has_component store_one 0 7 = false ∧
      ([1, 2] = List.take 2 [1, 2, 3] ∧
        has_component
          { store_one with
            componentArrays := Function.update store_one.componentArrays 0
              [{ entity := 0, data := [1, 2], dataSize := 2, typeID := 7 }] } 0 7 = true ∧
        (has_component store_one 0 7 = false →
          get_component
            { store_one with
              componentArrays := Function.update store_one.componentArrays 0
                [{ entity := 0, data := [1, 2], dataSize := 2, typeID := 7 }] } 0 7 =
            some (List.take 2 [1, 2, 3]))) :=
  ⟨rfl, add_component_get store_one _ 0 [1, 2, 3] 2 7 true [1, 2] rfl⟩

/-- C3, refuted as stated: on the reachable store `store_dup`, where entity `0`
holds two components with tag `7`, `remove_component (0, 7)` removes only the
first one and `has_component (0, 7)` is still true afterwards. -/
theorem remove_component_has_counterexample :
    Reachable store_dup ∧ has_component (remove_component store_dup 0 7) 0 7 = true :=
  ⟨⟨[.create, .add 0 [1] 1 7 true, .add 0 [2] 1 7 true], [0], rfl⟩, rfl⟩

/-- C3, amended: for every store, entity `e` and tag `t`, if the collection of
`e` holds at most one component with tag `t`, then after
`remove_component (e, t)` the lookup `has_component (e, t)` is false. -/
theorem remove_component_has (s : State) (e : Nat) (t : Int)
    (h : (s.componentArrays e).countP (fun c => decide (c.typeID = t)) ≤ 1) :
    has_component (remove_component s e t) e t = false := by
  rcases remove_component_cases s e t with ⟨hr, hc⟩ | ⟨i, hi, hr, h1, h2⟩
  · rw [hr]
    rcases hc with hc | hc | hc
    · exact (lookup_dead s e t (Or.inl hc)).1
    · exact (lookup_dead s e t (Or.inr hc)).1
    · by_cases h1 : e < MAX_ENTITIES
      · cases h2 : s.entityManager e with
        | false => exact (lookup_dead s e t (Or.inr h2)).1
        | true => rw [has_component_live s e t h1 h2, hc]
      · exact (lookup_dead s e t (Or.inl (Nat.le_of_not_lt h1))).1
  · obtain ⟨pre, c, post, hcs, hlen, hct, hpre⟩ := find_index_some t _ 0 i hi
    have hlive : (remove_component s e t).entityManager e = true := by
      rw [(remove_component_frame s e t).1]; exact h2
    rw [has_component_live _ e t h1 hlive, hr]
    simp only [Function.update_same]
    rw [hcs] at h ⊢
    rw [hlen, Nat.zero_add, has_scan_perm t _ _ (swap_remove_perm pre post c), has_scan_append,
      hpre]
    have hpost : post.countP (fun c => decide (c.typeID = t)) = 0 := by
      rw [List.countP_append, List.countP_cons] at h
      simp only [hct, decide_True, if_true] at h
      omega
    simp [countP_zero_has_scan t post hpost]

theorem remove_component_has_witness :
    (store_three.componentArrays 0).countP (fun c => decide (c.typeID = 2)) = 1 ∧
      (store_three.componentArrays 0).countP (fun c => decide (c.typeID = 2)) ≤ 1 ∧
      has_component store_three 0 2 = true ∧
      ((remove_component store_three 0 2).componentArrays 0).length + 1 =
        (store_three.componentArrays 0).length ∧
      has_component (remove_component store_three 0 2) 0 2 = false :=
  ⟨by decide, by decide, rfl, rfl, remove_component_has store_three 0 2 (by decide)⟩

/-- C4: for every store, entity `e` and tag `t` with `has_component (e, t)`
false, `remove_component (e, t)` returns the store unchanged: every liveness
flag and every component collection is as before. -/
theorem remove_component_absent (s : State) (e : Nat) (t : Int)
    (h : has_component s e t = false) : remove_component s e t = s := by
  rcases remove_component_cases s e t with ⟨hr, _⟩ | ⟨i, hi, _, h1, h2⟩
  · exact hr
  · rw [has_component_live s e t h1 h2] at h
    rw [(find_index_none_iff t _ 0).mpr h] at hi
    simp at hi

theorem remove_component_absent_witness :
    has_component store_dup 0 3 = false ∧ remove_component store_dup 0 3 = store_dup :=
  ⟨rfl, remove_component_absent store_dup 0 3 rfl⟩

/-- C6, refuted as stated: entity `0` of the reachable store `store_one` is in
range and live and holds fewer than `MAX_COMPONENTS` components, yet
`add_component` on it does not succeed when `malloc` returns `NULL`: the
process exits. -/
theorem add_component_capacity_counterexample :
    Reachable store_one ∧ 0 < MAX_ENTITIES ∧ store_one.entityManager 0 = true ∧
      (store_one.componentArrays 0).length < MAX_COMPONENTS ∧
      add_component store_one 0 [1] 1 7 false = .exit :=
  ⟨⟨[.create], [0], rfl⟩, by decide, rfl, by decide, rfl⟩

/-- C6, amended: on a live entity whose collection holds exactly
`MAX_COMPONENTS` components `add_component` returns `NULL` and leaves the whole
store as it is (so every lookup answers as before); on an in-range live entity
with fewer components the call succeeds and returns a handle to the bytes
`d[0..n)` provided `malloc` succeeds, and the process exits when `malloc`
fails.  Scenario: after `create_entity` returned `0`, any `k ≤ MAX_COMPONENTS`
calls with successful allocations attach their `k` components in call order,
all of them queryable; the next call succeeds when `k < MAX_COMPONENTS`, and
when `k = MAX_COMPONENTS` (the 65th call) it returns `NULL` and leaves the
store as it is. -/
theorem add_component_capacity (s : State) (e : Nat) (d : Payload) (n : Nat) (t : Int)
    (ok : Bool) (hlive : s.entityManager e = true) :
    ((s.componentArrays e).length = MAX_COMPONENTS → add_component s e d n t ok = .null s) ∧
    (e < MAX_ENTITIES → (s.componentArrays e).length < MAX_COMPONENTS →
      (ok = true → ∃ s', add_component s e d n t ok = .handle (d.take n) s') ∧
      (ok = false → add_component s e d n t ok = .exit)) ∧
    (∀ calls : List (Payload × Nat × Int), calls.length ≤ MAX_COMPONENTS →
      ∃ sk,
        exec init (Op.create :: calls.map (fun c => Op.add 0 c.1 c.2.1 c.2.2 true)) =
          some (sk, [0]) ∧
        sk.componentArrays 0 =
          calls.map (fun c =>
            ({ entity := 0, data := c.1.take c.2.1, dataSize := c.2.1, typeID := c.2.2 } :
              Component)) ∧
        (∀ c ∈ calls, has_component sk 0 c.2.2 = true ∧ get_component sk 0 c.2.2 ≠ none) ∧
        (calls.length < MAX_COMPONENTS →
          ∃ s', add_component sk 0 d n t true = .handle (d.take n) s') ∧
        (calls.length = MAX_COMPONENTS → add_component sk 0 d n t true = .null sk)) := by
  have key : ∀ (s : State) (e : Nat), s.entityManager e = true →
      ((s.componentArrays e).length = MAX_COMPONENTS → add_component s e d n t ok = .null s) ∧
      (e < MAX_ENTITIES → (s.componentArrays e).length < MAX_COMPONENTS →
        (ok = true → ∃ s', add_component s e d n t ok = .handle (d.take n) s') ∧
        (ok = false → add_component s e d n t ok = .exit)) := by
    intro s e hlive
    rcases add_component_cases s e d n t ok with
      ⟨hr, hc⟩ | ⟨hr, _, _, hlen, hok⟩ | ⟨hr, _, _, hlen, hok⟩
    · refine ⟨fun _ => hr, ?_⟩
      intro h1 h2
      rcases hc with hc | hc | hc
      · omega
      · rw [hlive] at hc
        simp at hc
      · omega
    · refine ⟨fun h => by omega, fun _ _ => ⟨fun h => ?_, fun _ => hr⟩⟩
      rw [hok] at h
      simp at h
    · refine ⟨fun h => by omega, fun _ _ => ⟨fun _ => ⟨_, hr⟩, fun h => ?_⟩⟩
      rw [hok] at h
      simp at h
  refine ⟨(key s e hlive).1, (key s e hlive).2, ?_⟩
  intro calls hcalls
  have hone1 : store_one.entityManager 0 = true := rfl
  have hone2 : store_one.componentArrays 0 = [] := rfl
  obtain ⟨sk, hk1, hk2, _, hk4⟩ :=
    exec_adds calls store_one 0 (by decide) hone1 (by rw [hone2]; simpa using hcalls)
  have hklive : sk.entityManager 0 = true := by rw [hk2]; exact hone1
  rw [hone2, List.nil_append] at hk4
  have hlen : (sk.componentArrays 0).length = calls.length := by
    rw [hk4, List.length_map]
  have hcap : ∀ (ok : Bool), ok = true →
      ((sk.componentArrays 0).length = MAX_COMPONENTS →
        add_component sk 0 d n t ok = .null sk) ∧
      ((sk.componentArrays 0).length < MAX_COMPONENTS →
        ∃ s', add_component sk 0 d n t ok = .handle (d.take n) s') := by
    intro ok hok
    rcases add_component_cases sk 0 d n t ok with
      ⟨hr, hc⟩ | ⟨hr, _, _, _, hok'⟩ | ⟨hr, _, _, hlen', _⟩
    · refine ⟨fun _ => hr, fun h => ?_⟩
      rcases hc with hc | hc | hc
      · exact absurd hc (by decide)
      · rw [hklive] at hc
        simp at hc
      · omega
    · rw [hok] at hok'
      simp at hok'
    · exact ⟨fun h => by omega, fun _ => ⟨_, hr⟩⟩
  refine ⟨sk, ?_, hk4, ?_, ?_, ?_⟩
  · rw [exec_cons]
    exact ⟨store_one, [0], [], rfl, hk1, rfl⟩
  · intro c hc
    have hhas : has_scan c.2.2 (sk.componentArrays 0) = true := by
      rw [has_scan_iff, hk4]
      exact ⟨_, List.mem_map.mpr ⟨c, hc, rfl⟩, rfl⟩
    refine ⟨?_, ?_⟩
    · rw [has_component_live sk 0 c.2.2 (by decide) hklive]
      exact hhas
    · rw [get_component_live sk 0 c.2.2 (by decide) hklive]
      intro hnone
      rw [(get_scan_none_iff _ _).mp hnone] at hhas
      simp at hhas
  · intro h
    exact (hcap true rfl).2 (by omega)
  · intro h
    exact (hcap true rfl).1 (by omega)

theorem add_component_capacity_witness :
    store_one.entityManager 0 = true ∧
      ∃ s', add_component store_one 0 [1, 2, 3] 2 7 true = .handle (List.take 2 [1, 2, 3]) s' :=
  ⟨rfl,
    ((add_component_capacity store_one 0 [1, 2, 3] 2 7 true rfl).2.1 (by decide)
      (by decide)).1 rfl⟩

/-! ## The entity registry -/

/-- C5: in a run from the initial store, once an identifier `e` that
`create_entity` returned has been passed to `destroy_entity`, then right
afterwards and after any further calls `has_component (e, t)` is false for
every tag and `add_component (e, ...)` returns `NULL` (leaving the store as it
is) for every payload and tag. -/
theorem destroy_entity_final (ops : List Op) (s : State) (ids : List Entity)
    (h : exec init ops = some (s, ids)) (e : Nat) (he : e ∈ ids)
    (ops' : List Op) (s' : State) (ids' : List Entity)
    (h' : exec (destroy_entity s e) ops' = some (s', ids')) :
    (∀ t, has_component s' e t = false) ∧
      (∀ d n t ok, add_component s' e d n t ok = .null s') := by
  have hlt : e < s.current_entity := (exec_init_mem s ops ids e h).mp he
  have hcap : s.current_entity ≤ MAX_ENTITIES := by
    have := exec_init_ids s ops ids h
    omega
  have hrange : e < MAX_ENTITIES := by omega
  have hdead : s'.entityManager e = false := by
    apply exec_dead (destroy_entity s e) s' ops' ids' e h'
    · simp [destroy_entity, hrange]
      exact hlt
    · simp [destroy_entity, hrange]
  refine ⟨fun t => (lookup_dead s' e t (Or.inr hdead)).1, ?_⟩
  intro d n t ok
  rcases add_component_cases s' e d n t ok with ⟨hr, _⟩ | ⟨_, _, hact, _⟩ | ⟨_, _, hact, _⟩
  · exact hr
  · rw [hdead] at hact
    simp at hact
  · rw [hdead] at hact
    simp at hact

theorem destroy_entity_final_witness :
    exec init [.create, .add 0 [1] 1 7 true] = some (run [.create, .add 0 [1] 1 7 true], [0]) ∧
    0 ∈ [0] ∧
    exec (destroy_entity (run [.create, .add 0 [1] 1 7 true]) 0) [.create, .add 0 [5] 1 7 true] =
      some (run [.create, .add 0 [1] 1 7 true, .destroy 0, .create, .add 0 [5] 1 7 true], [1]) ∧
    has_component
      (run [.create, .add 0 [1] 1 7 true, .destroy 0, .create, .add 0 [5] 1 7 true]) 0 7 = false :=
  ⟨rfl, by decide, rfl,
    (destroy_entity_final [.create, .add 0 [1] 1 7 true] _ [0] rfl 0 (by decide)
      [.create, .add 0 [5] 1 7 true] _ [1] rfl).1 7⟩

/-- C7: in every store a run from the initial store leads to, an identifier
that `create_entity` has not returned so far (in range or not) has no
component: `has_component` is false and `get_component` returns `NULL` for
every tag. -/
theorem not_created_no_component (ops : List Op) (s : State) (ids : List Entity)
    (h : exec init ops = some (s, ids)) (e : Nat) (he : e ∉ ids) (t : Int) :
    has_component s e t = false ∧ get_component s e t = none := by
  have hge : ¬ e < s.current_entity := fun hlt => he ((exec_init_mem s ops ids e h).mpr hlt)
  have hinv := exec_inv init s ops ids init_inv h
  apply lookup_dead
  right
  cases hact : s.entityManager e with
  | false => rfl
  | true => exact absurd (hinv.2.1 e hact) hge

theorem not_created_no_component_witness :
    exec init [.destroy 1, .create, .add 1 [1] 1 7 true, .add 0 [1] 1 7 true] =
      some (run [.destroy 1, .create, .add 1 [1] 1 7 true, .add 0 [1] 1 7 true], [0]) ∧
    1 ∉ [0] ∧
    (has_component (run [.destroy 1, .create, .add 1 [1] 1 7 true, .add 0 [1] 1 7 true]) 1 7
        = false ∧
      get_component (run [.destroy 1, .create, .add 1 [1] 1 7 true, .add 0 [1] 1 7 true]) 1 7
        = none) :=
  ⟨rfl, by decide,
    not_created_no_component [.destroy 1, .create, .add 1 [1] 1 7 true, .add 0 [1] 1 7 true] _ [0]
      rfl 1 (by decide) 7⟩

/-- C8: in every store a run from the initial store leads to, when
`create_entity` succeeds and returns `e`, then right afterwards `e` is in
range and live and holds no component (its collection is empty, so
`has_component` is false and `get_component` returns `NULL` for every tag),
whatever calls were made on the identifier `e` before. -/
theorem create_entity_fresh (ops : List Op) (s : State) (ids : List Entity)
    (h : exec init ops = some (s, ids)) (e : Nat) (s' : State)
    (hc : create_entity s = (some e, s')) :
    e < MAX_ENTITIES ∧ s'.entityManager e = true ∧ s'.componentArrays e = [] ∧
      (∀ t, has_component s' e t = false) ∧ (∀ t, get_component s' e t = none) := by
  obtain ⟨hlt, he, hs'⟩ := create_entity_some s s' e hc
  obtain ⟨_, h2, h3⟩ := exec_inv init s ops ids init_inv h
  have hdead : s.entityManager e = false := by
    cases hact : s.entityManager e with
    | false => rfl
    | true =>
      have := h2 e hact
      omega
  have hempty : s'.componentArrays e = [] := by
    rw [hs']
    exact h3 e hdead
  have hlive : s'.entityManager e = true := by
    rw [hs', he]
    simp
  have hr : e < MAX_ENTITIES := by omega
  refine ⟨hr, hlive, hempty, ?_, ?_⟩
  · intro t
    rw [has_component_live s' e t hr hlive, hempty]
    rfl
  · intro t
    rw [get_component_live s' e t hr hlive, hempty]
    rfl

theorem create_entity_fresh_witness :
    exec init [.create, .add 1 [1] 1 7 true, .destroy 1, .remove 1 7] =
      some (run [.create, .add 1 [1] 1 7 true, .destroy 1, .remove 1 7], [0]) ∧
    create_entity (run [.create, .add 1 [1] 1 7 true, .destroy 1, .remove 1 7]) =
      (some 1, run [.create, .add 1 [1] 1 7 true, .destroy 1, .remove 1 7, .create]) ∧
    (run [.create, .add 1 [1] 1 7 true, .destroy 1, .remove 1 7, .create]).entityManager 1
      = true ∧
    (run [.create, .add 1 [1] 1 7 true, .destroy 1, .remove 1 7, .create]).componentArrays 1
      = [] :=
  ⟨rfl, rfl,
    (create_entity_fresh [.create, .add 1 [1] 1 7 true, .destroy 1, .remove 1 7] _ [0] rfl 1 _
      rfl).2.1,
    (create_entity_fresh [.create, .add 1 [1] 1 7 true, .destroy 1, .remove 1 7] _ [0] rfl 1 _
      rfl).2.2.1⟩

/-- C9: in a run from the initial store, whatever other calls are interleaved,
the identifiers returned so far are `0, 1, ..., k - 1` in call order (strictly
increasing, pairwise distinct, at most `MAX_ENTITIES` of them); the next
`create_entity` call returns `k` when `k < MAX_ENTITIES`, and it fails exactly
when `MAX_ENTITIES` identifiers have been issued, leaving every liveness flag
and component collection as it is.  All `MAX_ENTITIES` calls do succeed:
`k ≤ MAX_ENTITIES` consecutive calls from the initial store return
`0, ..., k - 1`. -/
theorem create_entity_sequence (ops : List Op) (s : State) (ids : List Entity)
    (h : exec init ops = some (s, ids)) :
    ids = List.range ids.length ∧ ids.Pairwise (fun a b => a < b) ∧ ids.Nodup ∧
      ids.length ≤ MAX_ENTITIES ∧
      (ids.length < MAX_ENTITIES → ∃ s', create_entity s = (some ids.length, s')) ∧
      ((create_entity s).1 = none ↔ ids.length = MAX_ENTITIES) ∧
      ((create_entity s).1 = none → (create_entity s).2 = s) ∧
      (∀ k, k ≤ MAX_ENTITIES →
        ∃ sk, exec init (List.replicate k Op.create) = some (sk, List.range k)) := by
  obtain ⟨h1, h2, h3⟩ := exec_init_ids s ops ids h
  have hsorted : ids.Pairwise (fun a b => a < b) := by
    rw [h1]
    exact List.pairwise_lt_range _
  refine ⟨h1, hsorted, hsorted.imp (fun hab => Nat.ne_of_lt hab), h3, ?_, ?_, ?_, ?_⟩
  · intro hlt
    have hc : ¬ s.current_entity ≥ MAX_ENTITIES := by omega
    refine ⟨{ s with
      entityManager := Function.update s.entityManager s.current_entity true
      current_entity := s.current_entity + 1 }, ?_⟩
    unfold create_entity
    rw [if_neg hc, h2]
  · rw [create_entity_none, h2]
    omega
  · intro hnone
    have hc : s.current_entity ≥ MAX_ENTITIES := (create_entity_none s).mp hnone
    unfold create_entity
    rw [if_pos hc]
  · intro k hk
    obtain ⟨sk, hsk⟩ := exec_creates k init (by rw [show init.current_entity = 0 from rfl]; omega)
    refine ⟨sk, ?_⟩
    rw [hsk, List.range_eq_range']
    rfl

theorem create_entity_sequence_witness :
    exec init [.create, .destroy 0, .create, .add 1 [1] 1 7 true] =
      some (run [.create, .destroy 0, .create, .add 1 [1] 1 7 true], [0, 1]) ∧
    ([0, 1] = List.range (List.length [0, 1]) ∧
      ((List.length [0, 1]) < MAX_ENTITIES →
        ∃ s', create_entity (run [.create, .destroy 0, .create, .add 1 [1] 1 7 true]) =
          (some (List.length [0, 1]), s'))) :=
  ⟨rfl,
    (create_entity_sequence [.create, .destroy 0, .create, .add 1 [1] 1 7 true] _ [0, 1] rfl).1,
    (create_entity_sequence [.create, .destroy 0, .create, .add 1 [1] 1 7 true] _ [0, 1]
      rfl).2.2.2.2.1⟩

/-- C10: in a run from the initial store, once `destroy_entity` has been
called on an identifier `e` that `create_entity` returned, `e` is dead after
every further sequence of calls, none of the later `create_entity` calls of
the run returned `e`, and the next `create_entity` call does not return `e`
either. -/
theorem destroy_entity_permanent (ops : List Op) (s : State) (ids : List Entity)
    (h : exec init ops = some (s, ids)) (e : Nat) (he : e ∈ ids)
    (ops' : List Op) (s' : State) (ids' : List Entity)
    (h' : exec (destroy_entity s e) ops' = some (s', ids')) :
    s'.entityManager e = false ∧ e ∉ ids' ∧ (create_entity s').1 ≠ some e := by
  have hlt : e < s.current_entity := (exec_init_mem s ops ids e h).mp he
  have hcap : s.current_entity ≤ MAX_ENTITIES := by
    have := exec_init_ids s ops ids h
    omega
  have hrange : e < MAX_ENTITIES := by omega
  have hcur : (destroy_entity s e).current_entity = s.current_entity := by
    simp [destroy_entity, hrange]
  obtain ⟨hids, hcur'⟩ := exec_ids (destroy_entity s e) s' ops' ids' h'
  rw [hcur] at hids hcur'
  refine ⟨?_, ?_, ?_⟩
  · apply exec_dead (destroy_entity s e) s' ops' ids' e h'
    · rw [hcur]
      exact hlt
    · simp [destroy_entity, hrange]
  · intro hmem
    rw [hids, List.mem_range'_1] at hmem
    omega
  · intro hc
    unfold create_entity at hc
    split at hc
    · simp at hc
    · simp only [Option.some.injEq] at hc
      have hc' : @Eq Nat s'.current_entity e := hc
      omega

theorem destroy_entity_permanent_witness :
    exec init [.create, .create] = some (run [.create, .create], [0, 1]) ∧
    0 ∈ [0, 1] ∧
    exec (destroy_entity (run [.create, .create]) 0) [.create, .add 0 [1] 1 7 true] =
      some (run [.create, .create, .destroy 0, .create, .add 0 [1] 1 7 true], [2]) ∧
    (run [.create, .create, .destroy 0, .create, .add 0 [1] 1 7 true]).entityManager 0
      = false :=
  ⟨rfl, by decide, rfl,
    (destroy_entity_permanent [.create, .create] _ [0, 1] rfl 0 (by decide)
      [.create, .add 0 [1] 1 7 true] _ [2] rfl).1⟩

/-- C11: in every reachable store, `destroy_entity` on an identifier that is
out of range or not live (never created or already destroyed) returns the
store unchanged; on an in-range live entity it clears the liveness flag of
that entity, empties its collection and leaves every other flag, every other
collection and the counter as they are. -/
theorem destroy_entity_effect (s : State) (hs : Reachable s) (e : Nat) :
    ((MAX_ENTITIES ≤ e ∨ s.entityManager e = false) → destroy_entity s e = s) ∧
    (e < MAX_ENTITIES → s.entityManager e = true →
      (destroy_entity s e).entityManager e = false ∧
      (destroy_entity s e).componentArrays e = [] ∧
      (∀ x, x ≠ e →
        (destroy_entity s e).entityManager x = s.entityManager x ∧
        (destroy_entity s e).componentArrays x = s.componentArrays x) ∧
      (destroy_entity s e).current_entity = s.current_entity) := by
  obtain ⟨_, _, hempty⟩ := reachable_inv s hs
  constructor
  · intro h
    by_cases hr : e < MAX_ENTITIES
    · have hdead : s.entityManager e = false := by
        rcases h with h | h
        · omega
        · exact h
      have h1 : Function.update s.entityManager e false = s.entityManager := by
        rw [← hdead]
        exact Function.update_eq_self e s.entityManager
      have h2 : Function.update s.componentArrays e [] = s.componentArrays := by
        rw [← hempty e hdead]
        exact Function.update_eq_self e s.componentArrays
      unfold destroy_entity
      rw [if_pos hr, h1, h2]
    · unfold destroy_entity
      rw [if_neg hr]
  · intro hr _
    unfold destroy_entity
    rw [if_pos hr]
    refine ⟨by simp, by simp, ?_, rfl⟩
    intro x hx
    simp [Function.update_noteq hx]

theorem destroy_entity_effect_witness :
    Reachable store_dup ∧ (MAX_ENTITIES ≤ 5 ∨ store_dup.entityManager 5 = false) ∧
      destroy_entity store_dup 5 = store_dup ∧
      (destroy_entity store_dup 0).componentArrays 0 = [] :=
  ⟨⟨[.create, .add 0 [1] 1 7 true, .add 0 [2] 1 7 true], [0], rfl⟩, Or.inr rfl,
    (destroy_entity_effect store_dup
      ⟨[.create, .add 0 [1] 1 7 true, .add 0 [2] 1 7 true], [0], rfl⟩ 5).1 (Or.inr rfl),
    ((destroy_entity_effect store_dup
      ⟨[.create, .add 0 [1] 1 7 true, .add 0 [2] 1 7 true], [0], rfl⟩ 0).2
        (by decide) rfl).2.1⟩

/-- C12: for every store and every identifier that is out of range or dead,
`add_component` returns `NULL` and leaves the store as it is,
`remove_component` leaves the store as it is, `get_component` returns `NULL`,
`has_component` is false and `matches_filter` is false for every filter, the
empty one included. -/
theorem dead_entity_inert (s : State) (e : Nat)
    (h : MAX_ENTITIES ≤ e ∨ s.entityManager e = false) :
    (∀ d n t ok, add_component s e d n t ok = .null s) ∧
    (∀ t, remove_component s e t = s) ∧
    (∀ t, get_component s e t = none) ∧
    (∀ t, has_component s e t = false) ∧
    (∀ f, matches_filter s e f = false) := by
  have hnot : ¬ (e < MAX_ENTITIES ∧ s.entityManager e = true) := by
    rintro ⟨h1, h2⟩
    rcases h with h | h
    · omega
    · rw [h2] at h
      simp at h
  refine ⟨?_, ?_, fun t => (lookup_dead s e t h).2, fun t => (lookup_dead s e t h).1, ?_⟩
  · intro d n t ok
    rcases add_component_cases s e d n t ok with ⟨hr, _⟩ | ⟨_, h1, h2, _⟩ | ⟨_, h1, h2, _⟩
    · exact hr
    · exact absurd ⟨h1, h2⟩ hnot
    · exact absurd ⟨h1, h2⟩ hnot
  · intro t
    exact remove_component_dead s e t h
  · intro f
    cases hm : matches_filter s e f with
    | false => rfl
    | true =>
      have := (matches_filter_iff s e f).mp hm
      exact absurd ⟨this.1, this.2.1⟩ hnot

theorem dead_entity_inert_witness :
    (MAX_ENTITIES ≤ 3 ∨ store_dup.entityManager 3 = false) ∧
      remove_component store_dup 3 7 = store_dup ∧ matches_filter store_dup 3 [] = false :=
  ⟨Or.inr rfl, (dead_entity_inert store_dup 3 (Or.inr rfl)).2.1 7,
    (dead_entity_inert store_dup 3 (Or.inr rfl)).2.2.2.2 []⟩

/-! ## The system executor -/

/-- C13: for every system (callback and snapshot of `uint32_t` identifiers
`e_0, ..., e_(k-1)`) and every program state, `run_system` ends in the state
obtained by applying the callback to `e_0`, then `e_1`, ..., then `e_(k-1)`
(the left-to-right composition of its state transformations), and the record
of its invocations is exactly the snapshot: `k` calls, the `i`-th with `e_i`.
This holds whatever the callback does to the store: with a snapshot taken by
`get_filtered_entities` the calls are those of the snapshot, not of a query on
the stores the callback leaves. -/
theorem run_system_invocations {σ : Type} (system : System σ) (w : σ)
    (hwf : ∀ e ∈ system.filteredEntities, e < 2 ^ 32) :
    run_system system w =
      system.filteredEntities.foldl (fun w e => system.callback e w) w ∧
    run_system { callback := traced system.callback,
                 filteredEntities := system.filteredEntities } (w, []) =
      (run_system system w, system.filteredEntities) ∧
    (run_system { callback := traced system.callback,
                  filteredEntities := system.filteredEntities } (w, [])).2.length =
      system.filteredEntities.length ∧
    (∀ (s : State) (f : Filter) (cb : Entity → State → State),
      run_system { callback := traced cb, filteredEntities := get_filtered_entities s f }
          (s, []) =
        ((get_filtered_entities s f).foldl (fun w e => cb e w) s,
          get_filtered_entities s f)) := by
  have htr : run_system (System.mk (traced system.callback) system.filteredEntities) (w, []) =
      (run_system system w, system.filteredEntities) := by
    unfold run_system
    rw [run_loop_traced _ _ _ _ hwf]
    simp
  refine ⟨run_loop_foldl _ _ _ hwf, htr, by rw [htr], ?_⟩
  intro s f cb
  have hq : ∀ e ∈ get_filtered_entities s f, e < 2 ^ 32 := by
    intro e he
    have h1 := ((mem_get_filtered_entities s f e).mp he).1
    exact Nat.lt_of_lt_of_le h1 (by decide)
  unfold run_system
  rw [run_loop_traced _ _ _ _ hq, run_loop_foldl _ _ _ hq]
  simp

theorem run_system_invocations_witness :
    (∀ e ∈ [0, 1], e < 2 ^ 32) ∧
      run_system { callback := traced (fun _ s => destroy_entity s 1),
                   filteredEntities := [0, 1] } (store_two, []) =
        (run_system { callback := fun _ s => destroy_entity s 1, filteredEntities := [0, 1] }
          store_two, [0, 1]) :=
  ⟨by decide,
    (run_system_invocations
      { callback := fun _ s => destroy_entity s 1, filteredEntities := [0, 1] } store_two
      (by decide)).2.1⟩

/-! ## Filters and queries -/

/-- C14: for every store and any two filters listing the same set of tags (in
any order, with or without repetitions), `matches_filter` gives the same
answer on every entity and `get_filtered_entities` returns the same
snapshot. -/
theorem filter_order_irrelevant (s : State) (f g : Filter) (h : ∀ t, t ∈ f ↔ t ∈ g) :
    (∀ e, matches_filter s e f = matches_filter s e g) ∧
      get_filtered_entities s f = get_filtered_entities s g := by
  have hm : ∀ e, matches_filter s e f = matches_filter s e g := by
    intro e
    rw [Bool.eq_iff_iff, matches_filter_iff, matches_filter_iff]
    constructor
    · rintro ⟨h1, h2, h3⟩
      exact ⟨h1, h2, fun t ht => h3 t ((h t).mpr ht)⟩
    · rintro ⟨h1, h2, h3⟩
      exact ⟨h1, h2, fun t ht => h3 t ((h t).mp ht)⟩
  refine ⟨hm, ?_⟩
  rw [get_filtered_entities_eq, get_filtered_entities_eq]
  exact congrArg (fun p => List.filter p (List.range MAX_ENTITIES)) (funext hm)

theorem filter_order_irrelevant_witness :
    (∀ t : Int, t ∈ [1, 3] ↔ t ∈ [3, 1, 3]) ∧
      get_filtered_entities store_three [1, 3] = get_filtered_entities store_three [3, 1, 3] :=
  ⟨by intro t; simp; tauto,
    (filter_order_irrelevant store_three [1, 3] [3, 1, 3] (by intro t; simp; tauto)).2⟩

/-- C15: for every store (in particular every reachable one), entity `e` and
filter, the snapshot `get_filtered_entities` returns after `destroy_entity (e)`
is the snapshot it returned before with `e` deleted, the others in the same
order.  Scenario: after two `create_entity` calls returned `0` and `1`, tag
`3` was added to both and `0` was destroyed, the filter `[3]` gives `[1]`. -/
theorem destroy_entity_query (s : State) (e : Nat) (f : Filter) :
    get_filtered_entities (destroy_entity s e) f = (get_filtered_entities s f).erase e ∧
    get_filtered_entities (destroy_entity s e) f =
      (get_filtered_entities s f).filter (fun x => decide (x ≠ e)) ∧
    (∀ d0 n0 d1 n1, ∃ sc,
      exec init [.create, .create, .add 0 d0 n0 3 true, .add 1 d1 n1 3 true, .destroy 0] =
        some (sc, [0, 1]) ∧
      get_filtered_entities sc [3] = [1]) := by
  have hfilter : get_filtered_entities (destroy_entity s e) f =
      (get_filtered_entities s f).filter (fun x => decide (x ≠ e)) := by
    rw [get_filtered_entities_eq, get_filtered_entities_eq, List.filter_filter]
    apply List.filter_congr
    intro x hx
    have hxr : x < MAX_ENTITIES := List.mem_range.mp hx
    by_cases hxe : x = e
    · subst hxe
      have hdead : (destroy_entity s x).entityManager x = false := by
        simp [destroy_entity, hxr]
      have hm : matches_filter (destroy_entity s x) x f = false := by
        cases hmm : matches_filter (destroy_entity s x) x f with
        | false => rfl
        | true =>
          have := ((matches_filter_iff _ x f).mp hmm).2.1
          rw [hdead] at this
          simp at this
      simp [hm]
    · have hm : matches_filter (destroy_entity s e) x f = matches_filter s x f := by
        apply matches_filter_congr
        · unfold destroy_entity
          split
          · simp [Function.update_noteq hxe]
          · rfl
        · unfold destroy_entity
          split
          · simp [Function.update_noteq hxe]
          · rfl
      simp [hm, hxe]
  have hnodup : (get_filtered_entities s f).Nodup :=
    (get_filtered_entities_sorted s f).imp (fun hab => Nat.ne_of_lt hab)
  refine ⟨?_, hfilter, ?_⟩
  · rw [hfilter, hnodup.erase_eq_filter]
    apply List.filter_congr
    intro x _
    by_cases hxe : x = e <;> simp [hxe]
  · intro d0 n0 d1 n1
    refine ⟨_, rfl, ?_⟩
    apply get_filtered_entities_single
    intro x
    rw [mem_get_filtered_entities]
    by_cases h0 : x = 0
    · subst h0
      simp [destroy_entity, MAX_ENTITIES, init]
    · by_cases h1 : x = 1
      · subst h1
        simp [destroy_entity, has_component, has_scan, MAX_ENTITIES, init, Function.update]
      · simp [destroy_entity, MAX_ENTITIES, init, Function.update, h0, h1]

/-! ## Appending and swap removal -/

/-- C16, refuted as stated: entity `0` of the reachable store `store_dup` is in
range and live and holds two components, fewer than `MAX_COMPONENTS`, yet
`add_component` on it does not succeed when `malloc` returns `NULL`: the
process exits (the same exit that refutes C6). -/
theorem add_component_appends_counterexample :
    Reachable store_dup ∧ 0 < MAX_ENTITIES ∧ store_dup.entityManager 0 = true ∧
      (store_dup.componentArrays 0).length < MAX_COMPONENTS ∧
      add_component store_dup 0 [9] 1 7 false = .exit :=
  ⟨⟨[.create, .add 0 [1] 1 7 true, .add 0 [2] 1 7 true], [0], rfl⟩, by decide, rfl, by decide,
    rfl⟩

/-- C16, amended: for every store and every in-range live entity `e` with fewer
than `MAX_COMPONENTS` components, `add_component (e, d, n, t)` succeeds
provided `malloc` succeeds (the process exits when it fails); the collection
of `e` then grows by exactly one, the new component
`{entity e, tag t, payload d[0..n), size n}` is at the end, the earlier
components are unchanged in place, and if `e` already had a component with tag
`t` then `get_component (e, t)` returns the payload it returned before. -/
theorem add_component_appends (s : State) (e : Nat) (d : Payload) (n : Nat) (t : Int)
    (ok : Bool) (h1 : e < MAX_ENTITIES) (h2 : s.entityManager e = true)
    (h3 : (s.componentArrays e).length < MAX_COMPONENTS) :
    (ok = true → ∃ s',
      add_component s e d n t ok = .handle (d.take n) s' ∧
      (s'.componentArrays e).length = (s.componentArrays e).length + 1 ∧
      s'.componentArrays e =
        s.componentArrays e ++ [{ entity := e, data := d.take n, dataSize := n, typeID := t }] ∧
      (s'.componentArrays e)[(s.componentArrays e).length]? =
        some { entity := e, data := d.take n, dataSize := n, typeID := t } ∧
      (∀ j, j < (s.componentArrays e).length →
        (s'.componentArrays e)[j]? = (s.componentArrays e)[j]?) ∧
      (has_component s e t = true → get_component s' e t = get_component s e t)) ∧
    (ok = false → add_component s e d n t ok = .exit) := by
  rcases add_component_cases s e d n t ok with
    ⟨_, hc⟩ | ⟨hr, _, _, _, hok⟩ | ⟨hr, _, _, _, hok⟩
  · rcases hc with hc | hc | hc
    · omega
    · rw [h2] at hc
      simp at hc
    · omega
  · refine ⟨fun h => ?_, fun _ => hr⟩
    rw [hok] at h
    simp at h
  · refine ⟨fun _ => ⟨_, hr, ?_, ?_, ?_, ?_, ?_⟩, fun h => ?_⟩
    · simp
    · simp
    · simp
    · intro j hj
      simp only [Function.update_same]
      exact List.getElem?_append_left hj
    · intro hhas
      rw [has_component_live s e t h1 h2] at hhas
      have hnew : ∀ cs, get_component { s with componentArrays := cs } e t =
          get_scan t (cs e) :=
        fun cs => get_component_live { s with componentArrays := cs } e t h1 h2
      rw [get_component_live s e t h1 h2, hnew]
      simp only [Function.update_same]
      rw [get_scan_append]
      cases hg : get_scan t (s.componentArrays e) with
      | none =>
        rw [(get_scan_none_iff t _).mp hg] at hhas
        simp at hhas
      | some p => rfl
    · rw [hok] at h
      simp at h

theorem add_component_appends_witness :
    0 < MAX_ENTITIES ∧ store_dup.entityManager 0 = true ∧
      (store_dup.componentArrays 0).length < MAX_COMPONENTS ∧
      ∃ s', add_component store_dup 0 [9, 8] 1 7 true = .handle (List.take 1 [9, 8]) s' ∧
        (s'.componentArrays 0).length = (store_dup.componentArrays 0).length + 1 ∧
        s'.componentArrays 0 =
          store_dup.componentArrays 0 ++
            [{ entity := 0, data := List.take 1 [9, 8], dataSize := 1, typeID := 7 }] ∧
        (s'.componentArrays 0)[(store_dup.componentArrays 0).length]? =
          some { entity := 0, data := List.take 1 [9, 8], dataSize := 1, typeID := 7 } ∧
        (∀ j, j < (store_dup.componentArrays 0).length →
          (s'.componentArrays 0)[j]? = (store_dup.componentArrays 0)[j]?) ∧
        (has_component store_dup 0 7 = true →
          get_component s' 0 7 = get_component store_dup 0 7) :=
  ⟨by decide, rfl, by decide,
    (add_component_appends store_dup 0 [9, 8] 1 7 true (by decide) rfl (by decide)).1 rfl⟩

/-- C17: for every store and in-range live entity `e` whose collection
`c_0, ..., c_(m-1)` has its first component with tag `t` at index `i`,
`remove_component (e, t)` leaves a collection of length `m - 1` that has
`c_(m-1)` at index `i` (when `i < m - 1`) and `c_j` at every other index
`j < m - 1`; as a multiset it is the original collection minus `c_i`, so
exactly one component is removed even when several carry the tag. -/
theorem remove_component_swap (s : State) (e : Nat) (t : Int) (i : Nat) (c : Component)
    (h1 : e < MAX_ENTITIES) (h2 : s.entityManager e = true)
    (hc : (s.componentArrays e)[i]? = some c) (ht : c.typeID = t)
    (hfirst : ∀ j c', j < i → (s.componentArrays e)[j]? = some c' → c'.typeID ≠ t) :
    ((remove_component s e t).componentArrays e).length + 1 = (s.componentArrays e).length ∧
    (i < (s.componentArrays e).length - 1 →
      ((remove_component s e t).componentArrays e)[i]? =
        (s.componentArrays e)[(s.componentArrays e).length - 1]?) ∧
    (∀ j, j < (s.componentArrays e).length - 1 → j ≠ i →
      ((remove_component s e t).componentArrays e)[j]? = (s.componentArrays e)[j]?) ∧
    ((remove_component s e t).componentArrays e).Perm ((s.componentArrays e).eraseIdx i) ∧
    (s.componentArrays e).Perm (c :: (remove_component s e t).componentArrays e) := by
  obtain ⟨pre, post, hcs, hlen, hpre⟩ := first_index_split t _ i c hc hfirst
  have hfind : find_index t (s.componentArrays e) 0 = some i := by
    rw [hcs, find_index_split t pre post c 0 hpre ht, hlen, Nat.zero_add]
  have hrem : (remove_component s e t).componentArrays e =
      swap_remove (s.componentArrays e) i := by
    unfold remove_component
    simp [Nat.not_le.mpr h1, h2, hfind]
  have hperm := swap_remove_perm pre post c
  rw [hrem, hcs, ← hlen]
  refine ⟨?_, ?_, ?_, ?_, ?_⟩
  · rw [hperm.length_eq]
    simp
    omega
  · intro hi
    rcases List.eq_nil_or_concat post with rfl | ⟨mid, last, rfl⟩
    · simp at hi
    · rw [List.concat_eq_append, swap_remove_inner]
      have hl : (pre ++ c :: (mid ++ [last])).length - 1 = pre.length + (mid.length + 1) := by
        simp
      rw [hl, List.getElem?_append_right (Nat.le_refl _),
        List.getElem?_append_right (by omega)]
      simp
  · intro j hj hji
    rcases List.eq_nil_or_concat post with rfl | ⟨mid, last, rfl⟩
    · have hlast := swap_remove_last pre c
      simp only [List.singleton_append] at hlast
      have hj' : j < pre.length := by simpa using hj
      rw [hlast, List.getElem?_append_left hj']
    · rw [List.concat_eq_append, swap_remove_inner]
      have hj' : j < pre.length + (mid.length + 1) := by simpa using hj
      by_cases hlt : j < pre.length
      · rw [List.getElem?_append_left hlt, List.getElem?_append_left hlt]
      · obtain ⟨k, hk⟩ : ∃ k, j = pre.length + (k + 1) := ⟨j - pre.length - 1, by omega⟩
        subst hk
        rw [List.getElem?_append_right (by omega), List.getElem?_append_right (by omega)]
        have hk1 : pre.length + (k + 1) - pre.length = k + 1 := by omega
        rw [hk1, List.getElem?_cons_succ, List.getElem?_cons_succ,
          List.getElem?_append_left (by omega)]
  · rw [eraseIdx_split]
    exact hperm
  · exact (List.perm_middle.trans (List.Perm.cons c hperm.symm))

theorem remove_component_swap_witness :
    0 < MAX_ENTITIES ∧ store_three.entityManager 0 = true ∧
      (store_three.componentArrays 0)[1]? =
        some { entity := 0, data := [20], dataSize := 1, typeID := 2 } ∧
      ((remove_component store_three 0 2).componentArrays 0).length + 1 =
        (store_three.componentArrays 0).length ∧
      ((remove_component store_three 0 2).componentArrays 0)[1]? =
        (store_three.componentArrays 0)[(store_three.componentArrays 0).length - 1]? :=
  have hfirst : ∀ j c', j < 1 → (store_three.componentArrays 0)[j]? = some c' →
      c'.typeID ≠ 2 := by
    intro j c' hj h
    have hj0 : j = 0 := by omega
    subst hj0
    have h0 : (store_three.componentArrays 0)[0]? =
        some { entity := 0, data := [10], dataSize := 1, typeID := 1 } := rfl
    rw [h0] at h
    simp only [Option.some.injEq] at h
    rw [← h]
    decide
  ⟨by decide, rfl, rfl,
    (remove_component_swap store_three 0 2 1 _ (by decide) rfl rfl rfl hfirst).1,
    (remove_component_swap store_three 0 2 1 _ (by decide) rfl rfl rfl hfirst).2.1
      (by decide)⟩

/-! ## Invariants and frames -/

/-- C18: in every store a run of `create_entity`, `destroy_entity`,
`add_component` and `remove_component` calls from the initial store leads to,
every collection holds between `0` and `MAX_COMPONENTS` components, every
entity that is not live has an empty collection, every live entity has an
identifier smaller than the number of identifiers issued so far, and every
stored component carries the identifier of the collection that holds it. -/
theorem store_invariant (ops : List Op) (s : State) (ids : List Entity)
    (h : exec init ops = some (s, ids)) :
    (∀ e, 0 ≤ (s.componentArrays e).length ∧
      (s.componentArrays e).length ≤ MAX_COMPONENTS) ∧
    (∀ e, s.entityManager e = false → s.componentArrays e = []) ∧
    (∀ e, s.entityManager e = true → e < ids.length) ∧
    (∀ e c, c ∈ s.componentArrays e → c.entity = e) := by
  have ho := exec_owned init s ops ids init_owned h
  obtain ⟨_, hlive, hdead⟩ := exec_inv init s ops ids init_inv h
  obtain ⟨_, hcur, _⟩ := exec_init_ids s ops ids h
  refine ⟨fun e => ⟨Nat.zero_le _, (ho e).1⟩, hdead, ?_, fun e c hc => (ho e).2 c hc⟩
  intro e he
  rw [← hcur]
  exact hlive e he

theorem store_invariant_witness :
    exec init [.create, .add 0 [10] 1 1 true, .add 0 [20] 1 2 true, .add 0 [30] 1 3 true] =
      some (store_three, [0]) ∧
    (store_three.componentArrays 0).length ≤ MAX_COMPONENTS ∧
    store_three.entityManager 0 = true ∧ 0 < List.length [0] :=
  ⟨rfl,
    ((store_invariant [.create, .add 0 [10] 1 1 true, .add 0 [20] 1 2 true,
      .add 0 [30] 1 3 true] store_three [0] rfl).1 0).2,
    rfl,
    (store_invariant [.create, .add 0 [10] 1 1 true, .add 0 [20] 1 2 true,
      .add 0 [30] 1 3 true] store_three [0] rfl).2.2.1 0 rfl⟩

/-- C19: for every store, entity `e` and tag `t`, a returning
`add_component (e, d, n, t)` and `remove_component (e, t)` leave the liveness
flag of every entity as it is, leave the collection of every other entity as
it is, and leave `has_component (e, t')` as it is for every tag `t'` other
than `t`. -/
theorem mutation_frame (s : State) (e : Nat) (d : Payload) (n : Nat) (t : Int) (ok : Bool) :
    (∀ s', (add_component s e d n t ok = .null s' ∨
          ∃ p, add_component s e d n t ok = .handle p s') →
      s'.entityManager = s.entityManager ∧
      (∀ e', e' ≠ e → s'.componentArrays e' = s.componentArrays e') ∧
      (∀ t', t' ≠ t → has_component s' e t' = has_component s e t')) ∧
    ((remove_component s e t).entityManager = s.entityManager ∧
      (∀ e', e' ≠ e →
        (remove_component s e t).componentArrays e' = s.componentArrays e') ∧
      (∀ t', t' ≠ t →
        has_component (remove_component s e t) e t' = has_component s e t')) := by
  constructor
  · intro s' hadd
    rcases add_component_cases s e d n t ok with ⟨hr, _⟩ | ⟨hr, _⟩ | ⟨hr, _⟩
    · rw [hr] at hadd
      simp at hadd
      rw [← hadd]
      exact ⟨rfl, fun _ _ => rfl, fun _ _ => rfl⟩
    · rw [hr] at hadd
      simp at hadd
    · rw [hr] at hadd
      simp at hadd
      rw [← hadd]
      refine ⟨rfl, fun e' he' => by simp [Function.update_noteq he'], ?_⟩
      intro t' ht'
      refine has_component_scan s _ e t' rfl ?_
      simp only [Function.update_same]
      rw [has_scan_append]
      have hne : ¬ t = t' := fun h => ht' h.symm
      simp [has_scan, hne]
  · rcases remove_component_cases s e t with ⟨hr, _⟩ | ⟨i, hi, hr, _, _⟩
    · rw [hr]
      exact ⟨rfl, fun _ _ => rfl, fun _ _ => rfl⟩
    · rw [hr]
      refine ⟨rfl, fun e' he' => by simp [Function.update_noteq he'], ?_⟩
      intro t' ht'
      refine has_component_scan s _ e t' rfl ?_
      simp only [Function.update_same]
      obtain ⟨pre, c, post, hcs, hlen, hct, _⟩ := find_index_some t _ 0 i hi
      rw [Nat.zero_add] at hlen
      have hne : ¬ c.typeID = t' := fun h => ht' (h.symm.trans hct)
      rw [hcs, hlen, has_scan_perm t' _ _ (swap_remove_perm pre post c), has_scan_append,
        has_scan_append]
      simp [has_scan, hne]

theorem mutation_frame_witness :
    has_component (remove_component store_three 0 2) 0 3 = has_component store_three 0 3 ∧
      (remove_component store_three 0 2).componentArrays 1 = store_three.componentArrays 1 :=
  ⟨(mutation_frame store_three 0 [] 0 2 true).2.2.2 3 (by decide),
    (mutation_frame store_three 0 [] 0 2 true).2.2.1 1 (by decide)⟩

/-- C20: for every store and entity `e` whose collection holds at most one
component per tag, and for all tags `t` and `t'` with `t' ≠ t`,
`get_component (e, t')` returns the same payload after
`remove_component (e, t)` as before it, and the collection of `e` still holds
at most one component per tag afterwards. -/
theorem remove_component_stable (s : State) (e : Nat) (t t' : Int)
    (huniq : ((s.componentArrays e).map (fun c => c.typeID)).Nodup) (hne : t' ≠ t) :
    get_component (remove_component s e t) e t' = get_component s e t' ∧
      (((remove_component s e t).componentArrays e).map (fun c => c.typeID)).Nodup := by
  rcases remove_component_cases s e t with ⟨hr, _⟩ | ⟨i, hi, hr, h1, h2⟩
  · rw [hr]
    exact ⟨rfl, huniq⟩
  · obtain ⟨pre, c, post, hcs, hlen, hct, _⟩ := find_index_some t _ 0 i hi
    rw [Nat.zero_add] at hlen
    have hperm := swap_remove_perm pre post c
    have hcomps : (remove_component s e t).componentArrays e =
        swap_remove (pre ++ c :: post) pre.length := by
      rw [hr]
      simp only [Function.update_same]
      rw [hcs, hlen]
    have hlive : (remove_component s e t).entityManager e = true := by
      rw [(remove_component_frame s e t).1]
      exact h2
    have hsub : ((pre ++ post).map (fun c => c.typeID)).Nodup := by
      rw [hcs] at huniq
      exact huniq.sublist (((List.sublist_cons_self c post).append_left pre).map _)
    have hnew : ((swap_remove (pre ++ c :: post) pre.length).map (fun c => c.typeID)).Nodup :=
      ((hperm.map _).nodup_iff).mpr hsub
    refine ⟨?_, by rw [hcomps]; exact hnew⟩
    rw [get_component_live _ e t' h1 hlive, get_component_live s e t' h1 h2, hcomps, hcs,
      get_scan_perm t' _ _ hnew hperm, get_scan_append, get_scan_append]
    have hc : ¬ c.typeID = t' := fun h => hne (h.symm.trans hct)
    simp [get_scan, hc]

theorem remove_component_stable_witness :
    ((store_three.componentArrays 0).map (fun c => c.typeID)).Nodup ∧ (3 : Int) ≠ 1 ∧
      get_component (remove_component store_three 0 1) 0 3 = get_component store_three 0 3 :=
  ⟨by decide, by decide, (remove_component_stable store_three 0 1 3 (by decide) (by decide)).1⟩

end ECS
